import Mathlib

/-!
Verification of the batch JSON-to-TOON conversion utility.

The development embeds the two variants of the tool:
* `runPart000` models the CLI script with `parseCliOptions`, `ensureWorkspace`,
  `emptyOutputDir` and the per-entry loop (source file `part_000`);
* `runScript` models `scripts/convert-json-to-toon.ts` with `getJsonFiles`
  and `convertJsonToToon`.

External collaborators are modelled as follows: the TOON encoder is an
explicit function parameter (its contract is `Json → EncodeOptions →
Except String String`), `JSON.parse` is modelled by the executable parser
`jsonParse`, node's filesystem by the explicit state type `FS`, and node's
`parseArgs` result by the record `Args`.
-/

namespace Toon

/-! ## String primitives modelling JavaScript string operations -/

/-- Model of `String.prototype.toLowerCase` (ASCII range, which is all the
source relies on for the `.json` comparison). -/
def lowerStr (s : String) : String := ⟨s.toList.map Char.toLower⟩

/-- Model of `String.prototype.endsWith`. -/
def jsEndsWith (s suffix : String) : Bool := suffix.toList.isSuffixOf s.toList

/-- The check `entry.name.toLowerCase().endsWith('.json')` from `part_000`. -/
def endsWithJsonCI (s : String) : Bool := jsEndsWith (lowerStr s) ".json"

/-- Whitespace trimmed by JavaScript's `Number.parseInt`. -/
def isJsSpace (c : Char) : Bool :=
  c == ' ' || c == '\t' || c == '\n' || c == '\r' || c == '\x0b' || c == '\x0c'

def digitsToNat (ds : List Char) : Nat :=
  ds.foldl (fun a c => a * 10 + (c.toNat - '0'.toNat)) 0

/-- Model of JavaScript `Number.parseInt(s, 10)`: skip leading whitespace,
optional sign, then the longest prefix of decimal digits; `none` models the
result `NaN` (no digits at all). -/
def parseIntJS (s : String) : Option Int :=
  let cs := s.toList.dropWhile isJsSpace
  let signed : Int × List Char :=
    match cs with
    | '-' :: r => (-1, r)
    | '+' :: r => (1, r)
    | _ => (1, cs)
  let ds := signed.2.takeWhile Char.isDigit
  if ds.isEmpty then none else some (signed.1 * (digitsToNat ds : Int))

/-! ## JSON documents and a model of `JSON.parse` -/

/-- Parsed JSON documents.  Number literals are kept as their lexemes: the
core never inspects numbers, it only hands the document to the encoder. -/
inductive Json where
  | null
  | bool (b : Bool)
  | num (lit : String)
  | str (s : String)
  | arr (elems : List Json)
  | obj (members : List (String × Json))

/-- JSON's whitespace characters. -/
def isJsonWs (c : Char) : Bool :=
  c == ' ' || c == '\t' || c == '\n' || c == '\r'

def skipWs : List Char → List Char
  | [] => []
  | c :: r => if isJsonWs c then skipWs r else c :: r

def hexVal? (c : Char) : Option Nat :=
  if c.isDigit then some (c.toNat - '0'.toNat)
  else if 'a' ≤ c ∧ c ≤ 'f' then some (c.toNat - 'a'.toNat + 10)
  else if 'A' ≤ c ∧ c ≤ 'F' then some (c.toNat - 'A'.toNat + 10)
  else none

/-- Parse the remainder of a JSON string literal (the opening quote has been
consumed), handling the escape sequences accepted by `JSON.parse`. -/
def parseStrChars : List Char → List Char → Except String (String × List Char)
  | _, [] => .error "Unterminated string in JSON"
  | acc, '"' :: r => .ok (⟨acc.reverse⟩, r)
  | acc, '\\' :: 'u' :: h1 :: h2 :: h3 :: h4 :: r =>
    match hexVal? h1, hexVal? h2, hexVal? h3, hexVal? h4 with
    | some a, some b, some c, some d =>
      parseStrChars (Char.ofNat (((a * 16 + b) * 16 + c) * 16 + d) :: acc) r
    | _, _, _, _ => .error "Bad Unicode escape in JSON"
  | acc, '\\' :: c :: r =>
    if c = '"' then parseStrChars ('"' :: acc) r
    else if c = '\\' then parseStrChars ('\\' :: acc) r
    else if c = '/' then parseStrChars ('/' :: acc) r
    else if c = 'b' then parseStrChars ('\x08' :: acc) r
    else if c = 'f' then parseStrChars ('\x0c' :: acc) r
    else if c = 'n' then parseStrChars ('\n' :: acc) r
    else if c = 'r' then parseStrChars ('\r' :: acc) r
    else if c = 't' then parseStrChars ('\t' :: acc) r
    else .error "Bad escape in JSON"
  | _, '\\' :: [] => .error "Unterminated string in JSON"
  | acc, c :: r =>
    if c.toNat < 32 then .error "Bad control character in JSON string"
    else parseStrChars (c :: acc) r

def takeDigits (cs : List Char) : List Char × List Char :=
  (cs.takeWhile Char.isDigit, cs.dropWhile Char.isDigit)

/-- Integer part of a JSON number: `0`, or a nonzero digit followed by
digits (JSON forbids leading zeros). -/
def parseIntPart (cs : List Char) : Option (List Char × List Char) :=
  match cs with
  | '0' :: r => some (['0'], r)
  | c :: _ =>
    if c.isDigit then some (takeDigits cs) else none
  | [] => none

/-- Optional fraction part `.digits` of a JSON number. -/
def parseFracPart (cs : List Char) : Option (List Char × List Char) :=
  match cs with
  | '.' :: r =>
    let d := takeDigits r
    if d.1.isEmpty then none else some ('.' :: d.1, d.2)
  | _ => some ([], cs)

/-- Optional exponent part `e[+-]digits` of a JSON number. -/
def parseExpPart (cs : List Char) : Option (List Char × List Char) :=
  match cs with
  | c :: r =>
    if c = 'e' ∨ c = 'E' then
      let signed : List Char × List Char :=
        match r with
        | '+' :: r2 => (['+'], r2)
        | '-' :: r2 => (['-'], r2)
        | _ => ([], r)
      let d := takeDigits signed.2
      if d.1.isEmpty then none else some (c :: (signed.1 ++ d.1), d.2)
    else some ([], cs)
  | [] => some ([], [])

/-- A full JSON number literal, returned as its lexeme. -/
def parseNumberLit (cs : List Char) : Option (String × List Char) :=
  let signed : List Char × List Char :=
    match cs with
    | '-' :: r => (['-'], r)
    | _ => ([], cs)
  match parseIntPart signed.2 with
  | none => none
  | some (ip, r1) =>
    match parseFracPart r1 with
    | none => none
    | some (fp, r2) =>
      match parseExpPart r2 with
      | none => none
      | some (ep, r3) => some (⟨signed.1 ++ ip ++ fp ++ ep⟩, r3)

mutual

/-- Recursive-descent JSON value parser (fuel-indexed). -/
def parseVal : Nat → List Char → Except String (Json × List Char)
  | 0, _ => .error "JSON nesting too deep"
  | fuel + 1, cs =>
    match skipWs cs with
    | [] => .error "Unexpected end of JSON input"
    | c :: r =>
      if c = '\x7b' then parseObjMembers fuel (skipWs r) true []
      else if c = '[' then parseArrElems fuel (skipWs r) true []
      else if c = '"' then
        match parseStrChars [] r with
        | .error e => .error e
        | .ok (s, rest) => .ok (.str s, rest)
      else if c = 't' then
        match r with
        | 'r' :: 'u' :: 'e' :: rest => .ok (.bool true, rest)
        | _ => .error "Unexpected token in JSON"
      else if c = 'f' then
        match r with
        | 'a' :: 'l' :: 's' :: 'e' :: rest => .ok (.bool false, rest)
        | _ => .error "Unexpected token in JSON"
      else if c = 'n' then
        match r with
        | 'u' :: 'l' :: 'l' :: rest => .ok (.null, rest)
        | _ => .error "Unexpected token in JSON"
      else
        match parseNumberLit (c :: r) with
        | some (lit, rest) => .ok (.num lit, rest)
        | none => .error "Unexpected token in JSON"

/-- Members of a JSON object; `first` is true right after the opening brace.
The input has already had leading whitespace skipped. -/
def parseObjMembers : Nat → List Char → Bool → List (String × Json) →
    Except String (Json × List Char)
  | 0, _, _, _ => .error "JSON nesting too deep"
  | fuel + 1, cs, first, acc =>
    match cs with
    | c :: r =>
      if c = '\x7d' then
        if first then .ok (.obj acc.reverse, r)
        else .error "Unexpected closing brace in JSON object"
      else if c = '"' then
        match parseStrChars [] r with
        | .error e => .error e
        | .ok (key, r1) =>
          match skipWs r1 with
          | ':' :: r2 =>
            match parseVal fuel r2 with
            | .error e => .error e
            | .ok (v, r3) =>
              match skipWs r3 with
              | ',' :: r4 => parseObjMembers fuel (skipWs r4) false ((key, v) :: acc)
              | c2 :: r4 =>
                if c2 = '\x7d' then .ok (.obj ((key, v) :: acc).reverse, r4)
                else .error "Expected comma or closing brace in JSON object"
              | [] => .error "Unexpected end of JSON input"
          | _ => .error "Expected colon in JSON object"
      else .error "Expected property name or closing brace in JSON"
    | [] => .error "Unexpected end of JSON input"

/-- Elements of a JSON array; `first` is true right after the opening bracket.
The input has already had leading whitespace skipped. -/
def parseArrElems : Nat → List Char → Bool → List Json →
    Except String (Json × List Char)
  | 0, _, _, _ => .error "JSON nesting too deep"
  | fuel + 1, cs, first, acc =>
    match cs with
    | ']' :: r =>
      if first then .ok (.arr acc.reverse, r)
      else .error "Unexpected closing bracket in JSON array"
    | _ =>
      match parseVal fuel cs with
      | .error e => .error e
      | .ok (v, r1) =>
        match skipWs r1 with
        | ',' :: r2 => parseArrElems fuel (skipWs r2) false (v :: acc)
        | ']' :: r2 => .ok (.arr (v :: acc).reverse, r2)
        | _ => .error "Expected comma or closing bracket in JSON array"

end

/-- Model of `JSON.parse`: parse one value and require only trailing
whitespace after it. -/
def jsonParse (s : String) : Except String Json :=
  match parseVal (2 * s.length + 2) s.toList with
  | .error e => .error e
  | .ok (v, rest) =>
    match skipWs rest with
    | [] => .ok v
    | _ => .error "Unexpected character after JSON value"

example : jsonParse "\x7b\"x\":1\x7d" =
    .ok (.obj [("x", .num "1")]) := by rfl

example : (jsonParse "\x7bx:\x7d").isOk = false := by rfl

example : jsonParse " [1, true, null, \"a\\n\", -2.5e3] " =
    .ok (.arr [.num "1", .bool true, .null, .str "a\n", .num "-2.5e3"]) := by rfl

example : (jsonParse "[1,]").isOk = false := by rfl

example : (jsonParse "01").isOk = false := by rfl

/-! ## Encoder contract and CLI option resolution -/

inductive KeyFolding where
  | off
  | safe
deriving DecidableEq

/-- Configuration object handed to the external `encode` function; each
field is optional because the two variants pass different subsets. -/
structure EncodeOptions where
  delimiter : Option String
  indent : Option Int
  keyFolding : Option KeyFolding
  flattenDepth : Option Int
deriving DecidableEq

/-- The external encoder's contract: a pure function from a document and
options to encoded text or an encoding error. -/
abbrev Encoder := Json → EncodeOptions → Except String String

/-- Modelled from the spec: the toon package's `DELIMITERS` values (comma,
tab, pipe); the package itself is not under `src/`. -/
def DELIMITERS : List String := [",", "\t", "|"]

/-- Modelled from the spec: the toon package's `DEFAULT_DELIMITER` (comma);
the package itself is not under `src/`. -/
def DEFAULT_DELIMITER : String := ","

/-- The `values` record produced by node's `parseArgs` for the recognized
options (argument-parsing library internals are out of scope). -/
structure Args where
  indent : Option String
  delimiter : Option String
  keyFolding : Option String
  flattenDepth : Option String
  clean : Bool
  verbose : Bool
deriving DecidableEq

structure CliOptions where
  indent : Int
  delimiter : String
  keyFolding : KeyFolding
  flattenDepth : Option Int
  clean : Bool
  verbose : Bool
deriving DecidableEq

/-- The value of `values.indent ? Number.parseInt(values.indent, 10) : 2`:
an absent or empty (falsy) raw value yields the default 2. -/
def resolvedIndent (values : Args) : Option Int :=
  match values.indent with
  | none => some 2
  | some s => if s = "" then some 2 else parseIntJS s

/-- Model of `parseCliOptions` from `part_000`.  Note the JavaScript
truthiness test `values.indent ? … : 2`: an empty string is falsy, so it
falls back to the default 2, while `values.flattenDepth !== undefined` does
parse an empty string (yielding NaN, hence an error). -/
def parseCliOptions (values : Args) : Except String CliOptions :=
  match resolvedIndent values with
  | none => .error "--indent must be a non-negative integer"
  | some indent =>
    if indent < 0 then .error "--indent must be a non-negative integer"
    else
      let delimiter := values.delimiter.getD DEFAULT_DELIMITER
      if delimiter ∈ DELIMITERS then
        let keyFoldingVal : Option KeyFolding :=
          match values.keyFolding.getD "off" with
          | "off" => some .off
          | "safe" => some .safe
          | _ => none
        match keyFoldingVal with
        | none => .error "--keyFolding must be off or safe"
        | some keyFolding =>
          match values.flattenDepth with
          | some s =>
            match parseIntJS s with
            | none => .error "--flattenDepth must be a non-negative integer when provided"
            | some d =>
              if d < 0 then
                .error "--flattenDepth must be a non-negative integer when provided"
              else
                .ok ⟨indent, delimiter, keyFolding, some d, values.clean, values.verbose⟩
          | none => .ok ⟨indent, delimiter, keyFolding, none, values.clean, values.verbose⟩
      else .error "--delimiter must be one of comma, tab, pipe"

example : parseCliOptions ⟨none, none, none, none, false, false⟩ =
    .ok ⟨2, ",", .off, none, false, false⟩ := by rfl

example : parseCliOptions ⟨some "", none, none, none, false, false⟩ =
    .ok ⟨2, ",", .off, none, false, false⟩ := by rfl

example : (parseCliOptions ⟨some "-1", none, none, none, false, false⟩).isOk = false := by rfl

example : (parseCliOptions ⟨none, none, none, some "", false, false⟩).isOk = false := by rfl

/-! ## Filesystem model -/

/-- Paths are component lists, rooted at the process working directory. -/
abbrev Path := List String

/-- A filesystem snapshot: the set of existing directories and the existing
regular files with their contents.  The root (the working directory) always
exists as a directory. -/
structure FS where
  dirs : List Path
  files : List (Path × String)
deriving DecidableEq

def fileExists (fs : FS) (p : Path) : Bool :=
  fs.files.any (fun e => e.1 == p)

def dirExists (fs : FS) (p : Path) : Bool :=
  p == [] || fs.dirs.contains p

def existsSync (fs : FS) (p : Path) : Bool :=
  fileExists fs p || dirExists fs p

inductive StatRes where
  | file
  | dir
  | missing
deriving DecidableEq

/-- Result of `stat(p)` followed by `isFile()`; a missing path models the
thrown stat error. -/
def statOf (fs : FS) (p : Path) : StatRes :=
  if fileExists fs p then .file else if dirExists fs p then .dir else .missing

def readFileE (fs : FS) (p : Path) : Except String String :=
  match fs.files.find? (fun e => e.1 == p) with
  | some e => .ok e.2
  | none => .error "ENOENT: no such file or directory"

def parentOf (p : Path) : Path := p.dropLast

/-- Model of `writeFile`: overwrites an existing file; fails when the parent
directory is missing or the target is a directory. -/
def writeFileE (fs : FS) (p : Path) (content : String) : Except String FS :=
  if dirExists fs p then .error "EISDIR: illegal operation on a directory"
  else if dirExists fs (parentOf p) then
    .ok { fs with files := (p, content) :: fs.files.filter (fun e => !(e.1 == p)) }
  else .error "ENOENT: no such file or directory"

/-- The nonempty prefixes of a path, shortest first, the path itself last. -/
def prefixesOf (p : Path) : List Path :=
  (List.range p.length).map (fun i => p.take (i + 1))

/-- `mkdir` with `recursive: true` fails exactly when some prefix of the
path exists as a regular file. -/
def mkdirBlocked (fs : FS) (p : Path) : Bool :=
  (prefixesOf p).any (fileExists fs)

/-- Effect of a successful `mkdir` with `recursive: true`: every missing
prefix becomes a directory. -/
def mkdirRec (fs : FS) (p : Path) : FS :=
  { fs with dirs := (prefixesOf p).filter (fun q => !(dirExists fs q)) ++ fs.dirs }

/-- Model of `rm` with `recursive: true, force: true`: removes the whole
subtree rooted at `p`, succeeding even when nothing exists there. -/
def rmRecForce (fs : FS) (p : Path) : FS :=
  { dirs := fs.dirs.filter (fun q => !(p.isPrefixOf q)),
    files := fs.files.filter (fun e => !(p.isPrefixOf e.1)) }

def childName (p q : Path) : Option String :=
  if p.isPrefixOf q then
    match q.drop p.length with
    | [n] => some n
    | _ => none
  else none

/-- Model of `readdir`: the names of the immediate children of a directory,
or `none` (a thrown error) when `p` is not a directory. -/
def readdirNames (fs : FS) (p : Path) : Option (List String) :=
  if dirExists fs p then
    some (fs.dirs.filterMap (childName p) ++ fs.files.filterMap (fun e => childName p e.1))
  else none

/-! ## Run-level data: statistics, console events, filesystem operations -/

structure ConversionStats where
  processed : Nat
  converted : Nat
  skipped : Nat
  failed : Nat
deriving DecidableEq

def ConversionStats.zero : ConversionStats := ⟨0, 0, 0, 0⟩

/-- Console output events emitted by either variant. -/
inductive Event where
  | warnNoFiles
  | skipNotFile (name : String)
  | skipNotJson (name : String)
  | convertedLog (name : String)
  | failLog (name : String) (reason : String)
  | summary (stats : ConversionStats)
  | warnNoneConverted
  | scriptInputMissing
  | scriptCreatedOutput
  | scriptFound (n : Nat)
  | scriptOk (name : String)
  | scriptFail (name : String) (reason : String)
  | scriptNoFiles
  | scriptSummary (successCount failCount : Nat)
  | fatal (msg : String)
deriving DecidableEq

/-- Filesystem operations attempted by a run, with their target paths. -/
inductive FSOp where
  | readdirOp (p : Path)
  | statOp (p : Path)
  | readOp (p : Path)
  | writeOp (p : Path)
  | mkdirOp (p : Path)
  | rmOp (p : Path)
  | existsOp (p : Path)
deriving DecidableEq

structure RunResult where
  fs : FS
  events : List Event
  ops : List FSOp
  exit : Nat
deriving DecidableEq

/-! ## The `part_000` variant -/

/-- `INPUT_DIR`, resolved against the working directory. -/
def inputDir : Path := ["input_json"]

/-- `OUTPUT_DIR`, resolved against the working directory. -/
def outputDir : Path := ["output_toon"]

/-- The options object `part_000` passes to `encode`. -/
def encOptsOf (o : CliOptions) : EncodeOptions :=
  { delimiter := some o.delimiter, indent := some o.indent,
    keyFolding := some o.keyFolding, flattenDepth := o.flattenDepth }

/-- Model of node's `path.parse(name).name`: the base name with its last
extension removed (a lone leading dot does not start an extension). -/
def stemOf (name : String) : String :=
  let cs := name.toList
  let tailLen := (cs.reverse.takeWhile (fun c => !(c == '.'))).length
  if tailLen == cs.length then name
  else if cs.length - tailLen - 1 == 0 then name
  else ⟨cs.take (cs.length - tailLen - 1)⟩

example : stemOf "a.json" = "a" := by rfl
example : stemOf "a.tar.json" = "a.tar" := by rfl
example : stemOf ".json" = ".json" := by rfl
example : stemOf "noext" = "noext" := by rfl

structure StepResult where
  fs : FS
  stats : ConversionStats
  events : List Event
  ops : List FSOp
deriving DecidableEq

/-- One iteration of the entry loop of `part_000`'s `main` (lines 47-86):
stat check, `.json` name check, read, parse, encode, write, with the
try/catch folding every failure into a `failed` outcome. -/
def processEntry (enc : Encoder) (opts : CliOptions) (fs : FS)
    (stats : ConversionStats) (name : String) : StepResult :=
  let entryPath := inputDir ++ [name]
  if !(statOf fs entryPath == .file) then
    { fs := fs, stats := { stats with skipped := stats.skipped + 1 },
      events := if opts.verbose then [.skipNotFile name] else [],
      ops := [.statOp entryPath] }
  else
    let stats := { stats with processed := stats.processed + 1 }
    if !(endsWithJsonCI name) then
      { fs := fs, stats := { stats with skipped := stats.skipped + 1 },
        events := [.skipNotJson name], ops := [.statOp entryPath] }
    else
      match readFileE fs entryPath with
      | .error e =>
        { fs := fs, stats := { stats with failed := stats.failed + 1 },
          events := [.failLog name e], ops := [.statOp entryPath, .readOp entryPath] }
      | .ok rawJson =>
        match jsonParse rawJson with
        | .error e =>
          { fs := fs, stats := { stats with failed := stats.failed + 1 },
            events := [.failLog name e], ops := [.statOp entryPath, .readOp entryPath] }
        | .ok data =>
          match enc data (encOptsOf opts) with
          | .error e =>
            { fs := fs, stats := { stats with failed := stats.failed + 1 },
              events := [.failLog name e], ops := [.statOp entryPath, .readOp entryPath] }
          | .ok toonOutput =>
            let outputPath := outputDir ++ [stemOf name ++ ".toon"]
            match writeFileE fs outputPath toonOutput with
            | .error e =>
              { fs := fs, stats := { stats with failed := stats.failed + 1 },
                events := [.failLog name e],
                ops := [.statOp entryPath, .readOp entryPath, .writeOp outputPath] }
            | .ok fs' =>
              { fs := fs', stats := { stats with converted := stats.converted + 1 },
                events := if opts.verbose then [.convertedLog name] else [],
                ops := [.statOp entryPath, .readOp entryPath, .writeOp outputPath] }

/-- The entry loop of `part_000`'s `main` over the enumerated names. -/
def runLoop (enc : Encoder) (opts : CliOptions) :
    FS → ConversionStats → List String → StepResult
  | fs, stats, [] => ⟨fs, stats, [], []⟩
  | fs, stats, name :: rest =>
    let r := processEntry enc opts fs stats name
    let r2 := runLoop enc opts r.fs r.stats rest
    ⟨r2.fs, r2.stats, r.events ++ r2.events, r.ops ++ r2.ops⟩

/-- The filesystem after `ensureWorkspace` (both `mkdir` calls succeeded). -/
def workspaceFS (fs : FS) : FS := mkdirRec (mkdirRec fs inputDir) outputDir

/-- Model of `emptyOutputDir`: `rm -rf` the output directory, then recreate
it. -/
def emptyOutputDir (fs : FS) : FS := mkdirRec (rmRecForce fs outputDir) outputDir

/-- The filesystem the enumeration runs against: cleaned when `--clean`. -/
def cleanStage (opts : CliOptions) (fs : FS) : FS :=
  if opts.clean then emptyOutputDir fs else fs

/-- Model of `logSummary`. -/
def logSummary (stats : ConversionStats) : List Event :=
  .summary stats :: (if stats.converted = 0 then [.warnNoneConverted] else [])

/-- Model of `part_000`'s `main` (plus the top-level `main().catch` handler,
which exits 1 on an uncaught error).  Note: after `logSummary` the function
simply returns, so the process exit status is 0 regardless of `failed`. -/
def runPart000 (enc : Encoder) (args : Args) (fs : FS) : RunResult :=
  match parseCliOptions args with
  | .error e => ⟨fs, [.fatal e], [], 1⟩
  | .ok opts =>
    if mkdirBlocked fs inputDir then
      ⟨fs, [.fatal "EEXIST: file already exists"], [.mkdirOp inputDir], 1⟩
    else if mkdirBlocked (mkdirRec fs inputDir) outputDir then
      ⟨mkdirRec fs inputDir, [.fatal "EEXIST: file already exists"],
        [.mkdirOp inputDir, .mkdirOp outputDir], 1⟩
    else
      let fs3 := cleanStage opts (workspaceFS fs)
      let baseOps := [FSOp.mkdirOp inputDir, FSOp.mkdirOp outputDir] ++
        (if opts.clean then [FSOp.rmOp outputDir, FSOp.mkdirOp outputDir] else []) ++
        [FSOp.readdirOp inputDir]
      match readdirNames fs3 inputDir with
      | none => ⟨fs3, [.fatal "ENOTDIR: not a directory"], baseOps, 1⟩
      | some entries =>
        if entries.isEmpty then ⟨fs3, [.warnNoFiles], baseOps, 0⟩
        else
          let r := runLoop enc opts fs3 .zero entries
          ⟨r.fs, r.events ++ logSummary r.stats, baseOps ++ r.ops, 0⟩

/-! ## The `convert-json-to-toon.ts` variant -/

/-- The options object the script passes to `encode`. -/
def scriptEncOpts : EncodeOptions :=
  { delimiter := none, indent := some 2, keyFolding := some .off, flattenDepth := none }

/-- Model of `getJsonFiles`: regular files whose name ends in `.json`
(case-sensitive), as full paths. -/
def getJsonFiles (fs : FS) (dir : Path) : Option (List Path) :=
  match readdirNames fs dir with
  | none => none
  | some entries =>
    some ((entries.filter
        (fun n => statOf fs (dir ++ [n]) == .file && jsEndsWith n ".json")).map
      (fun n => dir ++ [n]))

/-- Model of `convertJsonToToon`: read, parse (wrapping the parse error),
encode, write; the first component is the updated filesystem or the thrown
error. -/
def convertJsonToToon (enc : Encoder) (fs : FS) (inputPath outputPath : Path) :
    Except String FS × List FSOp :=
  match readFileE fs inputPath with
  | .error e => (.error e, [.readOp inputPath])
  | .ok jsonContent =>
    match jsonParse jsonContent with
    | .error e => (.error ("Failed to parse JSON: " ++ e), [.readOp inputPath])
    | .ok data =>
      match enc data scriptEncOpts with
      | .error e => (.error e, [.readOp inputPath])
      | .ok toonOutput =>
        match writeFileE fs outputPath toonOutput with
        | .error e => (.error e, [.readOp inputPath, .writeOp outputPath])
        | .ok fs' => (.ok fs', [.readOp inputPath, .writeOp outputPath])

def lastComponent (p : Path) : String := p.getLastD ""

/-- Model of `path.basename(p, '.json')` applied to a name already known to
end in `.json`. -/
def dropJsonSuffix (name : String) : String :=
  if jsEndsWith name ".json" then ⟨name.toList.take (name.toList.length - 5)⟩
  else name

/-- The conversion loop of the script's `main`: success and failure counts
in place of the `results` array. -/
def scriptLoop (enc : Encoder) : FS → List Path → FS × Nat × Nat × List Event × List FSOp
  | fs, [] => (fs, 0, 0, [], [])
  | fs, inputFile :: rest =>
    let baseName := dropJsonSuffix (lastComponent inputFile)
    let outputFile := outputDir ++ [baseName ++ ".toon"]
    match convertJsonToToon enc fs inputFile outputFile with
    | (.ok fs', ops) =>
      let r := scriptLoop enc fs' rest
      (r.1, r.2.1 + 1, r.2.2.1, .scriptOk (lastComponent inputFile) :: r.2.2.2.1,
        ops ++ r.2.2.2.2)
    | (.error e, ops) =>
      let r := scriptLoop enc fs rest
      (r.1, r.2.1, r.2.2.1 + 1, .scriptFail (lastComponent inputFile) e :: r.2.2.2.1,
        ops ++ r.2.2.2.2)

/-- The filesystem after the script's output-directory check. -/
def scriptEnsureOutput (fs : FS) : FS :=
  if existsSync fs outputDir then fs else mkdirRec fs outputDir

/-- Model of the script's `main` (plus its `main().catch` handler): missing
input directory exits 1 without creating it; the summary is printed before
`process.exit(1)` when any conversion failed. -/
def runScript (enc : Encoder) (fs : FS) : RunResult :=
  if !(existsSync fs inputDir) then
    ⟨fs, [.scriptInputMissing], [.existsOp inputDir], 1⟩
  else
    let createdEvs : List Event :=
      if existsSync fs outputDir then [] else [.scriptCreatedOutput]
    let mkOps : List FSOp :=
      if existsSync fs outputDir then [] else [.mkdirOp outputDir]
    let fs1 := scriptEnsureOutput fs
    let preOps := [FSOp.existsOp inputDir, FSOp.existsOp outputDir] ++ mkOps ++
      [FSOp.readdirOp inputDir]
    match getJsonFiles fs1 inputDir with
    | none => ⟨fs1, createdEvs ++ [.fatal "ENOTDIR: not a directory"], preOps, 1⟩
    | some jsonFiles =>
      if jsonFiles.isEmpty then
        ⟨fs1, createdEvs ++ [.scriptNoFiles], preOps, 0⟩
      else
        let r := scriptLoop enc fs1 jsonFiles
        ⟨r.1, createdEvs ++ [.scriptFound jsonFiles.length] ++ r.2.2.2.1 ++
            [.scriptSummary r.2.1 r.2.2.1],
          preOps ++ r.2.2.2.2,
          if r.2.2.1 > 0 then 1 else 0⟩

/-! ## Concrete runs used by the scenario claims -/

/-- A stand-in encoder used to instantiate witnesses. -/
def encStub : Encoder := fun _ _ => .ok "ENC"

/-- A second stand-in encoder, used to witness encoder-independence. -/
def encStubFail : Encoder := fun _ _ => .error "unsupported structure"

def defaultArgs : Args := ⟨none, none, none, none, false, false⟩

def defaultOpts : CliOptions := ⟨2, ",", .off, none, false, false⟩

/-- Workspace with a single malformed `b.json`. -/
def fsBadOnly : FS :=
  ⟨[inputDir, outputDir], [(["input_json", "b.json"], "\x7bx:\x7d")]⟩

/-- The §8 scenario workspace: `a.json` holds valid JSON, `b.json` holds
the invalid document. -/
def fsScenario : FS :=
  ⟨[inputDir, outputDir],
    [(["input_json", "a.json"], "\x7b\"x\":1\x7d"),
     (["input_json", "b.json"], "\x7bx:\x7d")]⟩

example : (runPart000 encStub defaultArgs fsScenario).exit = 0 := by rfl

example : Event.summary ⟨2, 1, 0, 1⟩ ∈ (runPart000 encStub defaultArgs fsScenario).events := by
  decide

example : readFileE (runPart000 encStub defaultArgs fsScenario).fs
    (outputDir ++ ["a.toon"]) = .ok "ENC" := by rfl

example : (runScript encStub fsScenario).exit = 1 := by rfl

/-! ## Basic filesystem lemmas -/

theorem writeFileE_ok_spec {fs : FS} {p : Path} {c : String} {fs' : FS}
    (h : writeFileE fs p c = .ok fs') :
    fs' = { fs with files := (p, c) :: fs.files.filter (fun e => !(e.1 == p)) } := by
  unfold writeFileE at h
  split at h
  · exact absurd h (by simp)
  · split at h
    · cases h
      rfl
    · exact absurd h (by simp)

theorem fileExists_cons_filter (fs : FS) (p : Path) (c : String) (q : Path) (hq : q ≠ p) :
    fileExists { fs with files := (p, c) :: fs.files.filter (fun e => !(e.1 == p)) } q =
      fileExists fs q := by
  rw [Bool.eq_iff_iff]
  simp only [fileExists, List.any_cons, List.any_filter, Bool.or_eq_true, beq_iff_eq,
    List.any_eq_true, Bool.and_eq_true, Bool.not_eq_true']
  constructor
  · rintro (h | ⟨e, he, _, h2⟩)
    · exact absurd h.symm hq
    · exact ⟨e, he, h2⟩
  · rintro ⟨e, he, h2⟩
    refine Or.inr ⟨e, he, ?_, h2⟩
    simp [h2, hq]

theorem fileExists_write_self {fs : FS} {p : Path} {c : String} {fs' : FS}
    (h : writeFileE fs p c = .ok fs') : fileExists fs' p = true := by
  rw [writeFileE_ok_spec h]
  simp [fileExists]

theorem writeFileE_ok_dirs {fs : FS} {p : Path} {c : String} {fs' : FS}
    (h : writeFileE fs p c = .ok fs') : fs'.dirs = fs.dirs := by
  rw [writeFileE_ok_spec h]

theorem writeFileE_fileExists_other {fs : FS} {p : Path} {c : String} {fs' : FS}
    (h : writeFileE fs p c = .ok fs') {q : Path} (hq : q ≠ p) :
    fileExists fs' q = fileExists fs q := by
  rw [writeFileE_ok_spec h]
  exact fileExists_cons_filter fs p c q hq

theorem dirExists_eq_of_dirs_eq {fs fs' : FS} (h : fs'.dirs = fs.dirs) (q : Path) :
    dirExists fs' q = dirExists fs q := by
  simp [dirExists, h]

/-! ## Branch lemmas for `processEntry` -/

theorem processEntry_notFile (enc : Encoder) (opts : CliOptions) (fs : FS)
    (stats : ConversionStats) (n : String)
    (h : statOf fs (inputDir ++ [n]) ≠ .file) :
    processEntry enc opts fs stats n =
      { fs := fs, stats := { stats with skipped := stats.skipped + 1 },
        events := if opts.verbose then [.skipNotFile n] else [],
        ops := [.statOp (inputDir ++ [n])] } := by
  simp [processEntry, h]

theorem processEntry_notJson (enc : Encoder) (opts : CliOptions) (fs : FS)
    (stats : ConversionStats) (n : String)
    (h1 : statOf fs (inputDir ++ [n]) = .file)
    (h2 : endsWithJsonCI n = false) :
    processEntry enc opts fs stats n =
      { fs := fs,
        stats := ⟨stats.processed + 1, stats.converted, stats.skipped + 1, stats.failed⟩,
        events := [.skipNotJson n], ops := [.statOp (inputDir ++ [n])] } := by
  simp [processEntry, h1, h2]

theorem processEntry_readFail (enc : Encoder) (opts : CliOptions) (fs : FS)
    (stats : ConversionStats) (n : String) (e : String)
    (h1 : statOf fs (inputDir ++ [n]) = .file)
    (h2 : endsWithJsonCI n = true)
    (h3 : readFileE fs (inputDir ++ [n]) = .error e) :
    processEntry enc opts fs stats n =
      { fs := fs,
        stats := ⟨stats.processed + 1, stats.converted, stats.skipped, stats.failed + 1⟩,
        events := [.failLog n e],
        ops := [.statOp (inputDir ++ [n]), .readOp (inputDir ++ [n])] } := by
  simp [processEntry, h1, h2, h3]

theorem processEntry_parseFail (enc : Encoder) (opts : CliOptions) (fs : FS)
    (stats : ConversionStats) (n : String) (raw e : String)
    (h1 : statOf fs (inputDir ++ [n]) = .file)
    (h2 : endsWithJsonCI n = true)
    (h3 : readFileE fs (inputDir ++ [n]) = .ok raw)
    (h4 : jsonParse raw = .error e) :
    processEntry enc opts fs stats n =
      { fs := fs,
        stats := ⟨stats.processed + 1, stats.converted, stats.skipped, stats.failed + 1⟩,
        events := [.failLog n e],
        ops := [.statOp (inputDir ++ [n]), .readOp (inputDir ++ [n])] } := by
  simp [processEntry, h1, h2, h3, h4]

theorem processEntry_encFail (enc : Encoder) (opts : CliOptions) (fs : FS)
    (stats : ConversionStats) (n : String) (raw : String) (d : Json) (e : String)
    (h1 : statOf fs (inputDir ++ [n]) = .file)
    (h2 : endsWithJsonCI n = true)
    (h3 : readFileE fs (inputDir ++ [n]) = .ok raw)
    (h4 : jsonParse raw = .ok d)
    (h5 : enc d (encOptsOf opts) = .error e) :
    processEntry enc opts fs stats n =
      { fs := fs,
        stats := ⟨stats.processed + 1, stats.converted, stats.skipped, stats.failed + 1⟩,
        events := [.failLog n e],
        ops := [.statOp (inputDir ++ [n]), .readOp (inputDir ++ [n])] } := by
  simp [processEntry, h1, h2, h3, h4, h5]

theorem processEntry_writeFail (enc : Encoder) (opts : CliOptions) (fs : FS)
    (stats : ConversionStats) (n : String) (raw : String) (d : Json) (t e : String)
    (h1 : statOf fs (inputDir ++ [n]) = .file)
    (h2 : endsWithJsonCI n = true)
    (h3 : readFileE fs (inputDir ++ [n]) = .ok raw)
    (h4 : jsonParse raw = .ok d)
    (h5 : enc d (encOptsOf opts) = .ok t)
    (h6 : writeFileE fs (outputDir ++ [stemOf n ++ ".toon"]) t = .error e) :
    processEntry enc opts fs stats n =
      { fs := fs,
        stats := ⟨stats.processed + 1, stats.converted, stats.skipped, stats.failed + 1⟩,
        events := [.failLog n e],
        ops := [.statOp (inputDir ++ [n]), .readOp (inputDir ++ [n]),
                .writeOp (outputDir ++ [stemOf n ++ ".toon"])] } := by
  simp [processEntry, h1, h2, h3, h4, h5, h6]

theorem processEntry_ok (enc : Encoder) (opts : CliOptions) (fs : FS)
    (stats : ConversionStats) (n : String) (raw : String) (d : Json) (t : String)
    (fs' : FS)
    (h1 : statOf fs (inputDir ++ [n]) = .file)
    (h2 : endsWithJsonCI n = true)
    (h3 : readFileE fs (inputDir ++ [n]) = .ok raw)
    (h4 : jsonParse raw = .ok d)
    (h5 : enc d (encOptsOf opts) = .ok t)
    (h6 : writeFileE fs (outputDir ++ [stemOf n ++ ".toon"]) t = .ok fs') :
    processEntry enc opts fs stats n =
      { fs := fs',
        stats := ⟨stats.processed + 1, stats.converted + 1, stats.skipped, stats.failed⟩,
        events := if opts.verbose then [.convertedLog n] else [],
        ops := [.statOp (inputDir ++ [n]), .readOp (inputDir ++ [n]),
                .writeOp (outputDir ++ [stemOf n ++ ".toon"])] } := by
  simp [processEntry, h1, h2, h3, h4, h5, h6]

/-! ## Structural facts about one loop iteration -/

theorem output_not_prefix_input (n : String) :
    outputDir.isPrefixOf (inputDir ++ [n]) = false := by rfl

theorem output_prefix_output (l : List String) :
    outputDir.isPrefixOf (outputDir ++ l) = true := by
  simp [List.isPrefixOf_iff_prefix]

/-- Combined characterization of one iteration: the directory set is
untouched, the filesystem changes only by the single output write, the
attempted operations have one of three shapes, and the statistics deltas
are determined by the stat result and the `.json` name check. -/
theorem processEntry_spec (enc : Encoder) (opts : CliOptions) (fs : FS)
    (stats : ConversionStats) (n : String) :
    ((processEntry enc opts fs stats n).fs.dirs = fs.dirs) ∧
    ((processEntry enc opts fs stats n).fs = fs ∨
      ∃ t, writeFileE fs (outputDir ++ [stemOf n ++ ".toon"]) t =
        .ok (processEntry enc opts fs stats n).fs) ∧
    ((processEntry enc opts fs stats n).ops = [.statOp (inputDir ++ [n])] ∨
      (processEntry enc opts fs stats n).ops =
        [.statOp (inputDir ++ [n]), .readOp (inputDir ++ [n])] ∨
      (processEntry enc opts fs stats n).ops =
        [.statOp (inputDir ++ [n]), .readOp (inputDir ++ [n]),
         .writeOp (outputDir ++ [stemOf n ++ ".toon"])]) ∧
    ((processEntry enc opts fs stats n).stats.processed =
      stats.processed + (if statOf fs (inputDir ++ [n]) = .file then 1 else 0)) ∧
    ((processEntry enc opts fs stats n).stats.skipped =
      stats.skipped +
        (if statOf fs (inputDir ++ [n]) = .file ∧ endsWithJsonCI n = true then 0 else 1)) ∧
    ((processEntry enc opts fs stats n).stats.converted +
        (processEntry enc opts fs stats n).stats.failed =
      stats.converted + stats.failed +
        (if statOf fs (inputDir ++ [n]) = .file ∧ endsWithJsonCI n = true then 1 else 0)) := by
  by_cases h1 : statOf fs (inputDir ++ [n]) = .file
  · by_cases h2 : endsWithJsonCI n = true
    · cases h3 : readFileE fs (inputDir ++ [n]) with
      | error e =>
        rw [processEntry_readFail enc opts fs stats n e h1 h2 h3]
        exact ⟨rfl, Or.inl rfl, Or.inr (Or.inl rfl),
          by simp [h1], by simp [h1, h2], by simp [h1, h2]; omega⟩
      | ok raw =>
        cases h4 : jsonParse raw with
        | error e =>
          rw [processEntry_parseFail enc opts fs stats n raw e h1 h2 h3 h4]
          exact ⟨rfl, Or.inl rfl, Or.inr (Or.inl rfl),
            by simp [h1], by simp [h1, h2], by simp [h1, h2]; omega⟩
        | ok d =>
          cases h5 : enc d (encOptsOf opts) with
          | error e =>
            rw [processEntry_encFail enc opts fs stats n raw d e h1 h2 h3 h4 h5]
            exact ⟨rfl, Or.inl rfl, Or.inr (Or.inl rfl),
              by simp [h1], by simp [h1, h2], by simp [h1, h2]; omega⟩
          | ok t =>
            cases h6 : writeFileE fs (outputDir ++ [stemOf n ++ ".toon"]) t with
            | error e =>
              rw [processEntry_writeFail enc opts fs stats n raw d t e h1 h2 h3 h4 h5 h6]
              exact ⟨rfl, Or.inl rfl, Or.inr (Or.inr rfl),
                by simp [h1], by simp [h1, h2], by simp [h1, h2]; omega⟩
            | ok fs' =>
              rw [processEntry_ok enc opts fs stats n raw d t fs' h1 h2 h3 h4 h5 h6]
              exact ⟨(writeFileE_ok_spec h6 ▸ rfl), Or.inr ⟨t, h6⟩, Or.inr (Or.inr rfl),
                by simp [h1], by simp [h1, h2], by simp [h1, h2]; omega⟩
    · rw [processEntry_notJson enc opts fs stats n h1 (by simpa using h2)]
      exact ⟨rfl, Or.inl rfl, Or.inl rfl, by simp [h1], by simp [h2], by simp [h2]⟩
  · rw [processEntry_notFile enc opts fs stats n h1]
    exact ⟨rfl, Or.inl rfl, Or.inl rfl, by simp [h1], by simp [h1], by simp [h1]⟩

theorem processEntry_dirs (enc : Encoder) (opts : CliOptions) (fs : FS)
    (stats : ConversionStats) (n : String) :
    (processEntry enc opts fs stats n).fs.dirs = fs.dirs :=
  (processEntry_spec enc opts fs stats n).1

theorem processEntry_fileExists_frame (enc : Encoder) (opts : CliOptions) (fs : FS)
    (stats : ConversionStats) (n : String) (q : Path)
    (hq : outputDir.isPrefixOf q = false) :
    fileExists (processEntry enc opts fs stats n).fs q = fileExists fs q := by
  rcases (processEntry_spec enc opts fs stats n).2.1 with h | ⟨t, h⟩
  · rw [h]
  · refine writeFileE_fileExists_other h ?_
    intro hqe
    rw [hqe, output_prefix_output] at hq
    exact absurd hq (by simp)

theorem processEntry_dirExists_frame (enc : Encoder) (opts : CliOptions) (fs : FS)
    (stats : ConversionStats) (n : String) (q : Path) :
    dirExists (processEntry enc opts fs stats n).fs q = dirExists fs q :=
  dirExists_eq_of_dirs_eq (processEntry_dirs enc opts fs stats n) q

theorem processEntry_statOf_frame (enc : Encoder) (opts : CliOptions) (fs : FS)
    (stats : ConversionStats) (n : String) (q : Path)
    (hq : outputDir.isPrefixOf q = false) :
    statOf (processEntry enc opts fs stats n).fs q = statOf fs q := by
  unfold statOf
  rw [processEntry_fileExists_frame enc opts fs stats n q hq,
    processEntry_dirExists_frame enc opts fs stats n q]

/-! ## Loop-level lemmas -/

theorem runLoop_dirs (enc : Encoder) (opts : CliOptions) :
    ∀ (names : List String) (fs : FS) (stats : ConversionStats),
      (runLoop enc opts fs stats names).fs.dirs = fs.dirs := by
  intro names
  induction names with
  | nil => intro fs stats; rfl
  | cons n rest ih =>
    intro fs stats
    simp only [runLoop]
    rw [ih, processEntry_dirs]

theorem runLoop_fileExists_frame (enc : Encoder) (opts : CliOptions) :
    ∀ (names : List String) (fs : FS) (stats : ConversionStats) (q : Path),
      outputDir.isPrefixOf q = false →
      fileExists (runLoop enc opts fs stats names).fs q = fileExists fs q := by
  intro names
  induction names with
  | nil => intro fs stats q _; rfl
  | cons n rest ih =>
    intro fs stats q hq
    simp only [runLoop]
    rw [ih _ _ q hq, processEntry_fileExists_frame enc opts fs stats n q hq]

theorem runLoop_statOf_frame (enc : Encoder) (opts : CliOptions)
    (names : List String) (fs : FS) (stats : ConversionStats) (q : Path)
    (hq : outputDir.isPrefixOf q = false) :
    statOf (runLoop enc opts fs stats names).fs q = statOf fs q := by
  unfold statOf
  rw [runLoop_fileExists_frame enc opts names fs stats q hq,
    dirExists_eq_of_dirs_eq (runLoop_dirs enc opts names fs stats) q]

/-- Statistics of the loop, counted over the enumerated names against the
filesystem the loop started from. -/
theorem runLoop_stats (enc : Encoder) (opts : CliOptions) :
    ∀ (names : List String) (fs : FS) (stats : ConversionStats),
      ((runLoop enc opts fs stats names).stats.processed =
        stats.processed + names.countP (fun n => statOf fs (inputDir ++ [n]) == .file)) ∧
      ((runLoop enc opts fs stats names).stats.skipped =
        stats.skipped + names.countP
          (fun n => !(statOf fs (inputDir ++ [n]) == .file && endsWithJsonCI n))) ∧
      ((runLoop enc opts fs stats names).stats.converted +
          (runLoop enc opts fs stats names).stats.failed =
        stats.converted + stats.failed + names.countP
          (fun n => statOf fs (inputDir ++ [n]) == .file && endsWithJsonCI n)) := by
  intro names
  induction names with
  | nil => intro fs stats; simp [runLoop]
  | cons n rest ih =>
    intro fs stats
    obtain ⟨-, -, -, hp, hs, hcf⟩ := processEntry_spec enc opts fs stats n
    obtain ⟨ihp, ihs, ihcf⟩ :=
      ih (processEntry enc opts fs stats n).fs (processEntry enc opts fs stats n).stats
    have hfr : ∀ m, statOf (processEntry enc opts fs stats n).fs (inputDir ++ [m]) =
        statOf fs (inputDir ++ [m]) :=
      fun m => processEntry_statOf_frame enc opts fs stats n _ (output_not_prefix_input m)
    have e1 : rest.countP
        (fun m => statOf (processEntry enc opts fs stats n).fs (inputDir ++ [m]) == .file) =
        rest.countP (fun m => statOf fs (inputDir ++ [m]) == .file) :=
      List.countP_congr (fun m _ => by rw [hfr m])
    have e2 : rest.countP (fun m =>
          !(statOf (processEntry enc opts fs stats n).fs (inputDir ++ [m]) == .file &&
            endsWithJsonCI m)) =
        rest.countP (fun m => !(statOf fs (inputDir ++ [m]) == .file && endsWithJsonCI m)) :=
      List.countP_congr (fun m _ => by rw [hfr m])
    have e3 : rest.countP (fun m =>
          statOf (processEntry enc opts fs stats n).fs (inputDir ++ [m]) == .file &&
            endsWithJsonCI m) =
        rest.countP (fun m => statOf fs (inputDir ++ [m]) == .file && endsWithJsonCI m) :=
      List.countP_congr (fun m _ => by rw [hfr m])
    refine ⟨?_, ?_, ?_⟩
    · show (runLoop enc opts (processEntry enc opts fs stats n).fs
        (processEntry enc opts fs stats n).stats rest).stats.processed = _
      rw [ihp, e1, hp, List.countP_cons]
      by_cases h : statOf fs (inputDir ++ [n]) = .file <;> simp [h] <;> omega
    · show (runLoop enc opts (processEntry enc opts fs stats n).fs
        (processEntry enc opts fs stats n).stats rest).stats.skipped = _
      rw [ihs, e2, hs, List.countP_cons]
      by_cases h : statOf fs (inputDir ++ [n]) = .file <;>
        by_cases h2 : endsWithJsonCI n = true <;> simp [h, h2] <;> omega
    · show (runLoop enc opts (processEntry enc opts fs stats n).fs
          (processEntry enc opts fs stats n).stats rest).stats.converted +
          (runLoop enc opts (processEntry enc opts fs stats n).fs
          (processEntry enc opts fs stats n).stats rest).stats.failed = _
      rw [ihcf, e3, hcf, List.countP_cons]
      by_cases h : statOf fs (inputDir ++ [n]) = .file <;>
        by_cases h2 : endsWithJsonCI n = true <;> simp [h, h2] <;> omega

/-- Any file existing after the loop either existed before it or is the
derived output of one of the processed names. -/
theorem runLoop_fileExists_source (enc : Encoder) (opts : CliOptions) :
    ∀ (names : List String) (fs : FS) (stats : ConversionStats) (p : Path),
      fileExists (runLoop enc opts fs stats names).fs p = true →
      fileExists fs p = true ∨ ∃ n ∈ names, p = outputDir ++ [stemOf n ++ ".toon"] := by
  intro names
  induction names with
  | nil => intro fs stats p h; exact Or.inl h
  | cons n rest ih =>
    intro fs stats p h
    have h' : fileExists (processEntry enc opts fs stats n).fs p = true ∨
        ∃ m ∈ rest, p = outputDir ++ [stemOf m ++ ".toon"] := ih _ _ p h
    rcases h' with h' | ⟨m, hm, hp⟩
    · rcases (processEntry_spec enc opts fs stats n).2.1 with he | ⟨t, he⟩
      · rw [he] at h'
        exact Or.inl h'
      · by_cases hp : p = outputDir ++ [stemOf n ++ ".toon"]
        · exact Or.inr ⟨n, List.mem_cons_self n rest, hp⟩
        · rw [writeFileE_fileExists_other he hp] at h'
          exact Or.inl h'
    · exact Or.inr ⟨m, List.mem_cons_of_mem n hm, hp⟩

/-! ## Claim C1 -/

/-- Workspace with a single convertible `a.json`. -/
def fsGoodOnly : FS :=
  ⟨[inputDir, outputDir], [(["input_json", "a.json"], "\x7b\"x\":1\x7d")]⟩

/-- Claim C1, evaluated at the failing input: `part_000`'s `main` returns
normally after `logSummary`, so on a workspace whose only entry fails to
convert the summary reports `failed = 1` and yet the process exits with
status 0, contradicting the claim's non-zero requirement.  For contrast,
the same input under the `convert-json-to-toon.ts` variant prints its
summary and exits 1, and a failure-free `part_000` run exits 0 as the claim
requires. -/
theorem c1_part000_exit_zero_despite_failure :
    ((runPart000 encStub defaultArgs fsBadOnly).exit = 0 ∧
      Event.summary ⟨1, 0, 0, 1⟩ ∈ (runPart000 encStub defaultArgs fsBadOnly).events) ∧
    ((runScript encStub fsBadOnly).exit = 1 ∧
      Event.scriptSummary 0 1 ∈ (runScript encStub fsBadOnly).events) ∧
    ((runPart000 encStub defaultArgs fsGoodOnly).exit = 0 ∧
      Event.summary ⟨1, 1, 0, 0⟩ ∈ (runPart000 encStub defaultArgs fsGoodOnly).events) := by
  exact ⟨⟨rfl, by decide⟩, ⟨rfl, by decide⟩, ⟨rfl, by decide⟩⟩

/-! ## Claim C2 -/

/-- The §8 scenario filesystem after the run: `a.toon` written, inputs
untouched. -/
def fsScenarioDone (out : String) : FS :=
  ⟨[inputDir, outputDir],
    [(["output_toon", "a.toon"], out),
     (["input_json", "a.json"], "\x7b\"x\":1\x7d"),
     (["input_json", "b.json"], "\x7bx:\x7d")]⟩

/-- Claim C2, evaluated on the scenario directory (`a.json` = `(\x7b"x":1\x7d)`,
`b.json` = `(\x7bx:\x7d)`, defaulted options), for any encoder that encodes the
parsed `a.json` document to `out`: `output_toon/a.toon` is written with
content `out`, a failure is logged for `b.json`, and the summary reports
processed=2, converted=1, skipped=0, failed=1 — but the process exits with
status 0, not the claimed non-zero status. -/
theorem c2_scenario_eval (enc : Encoder) (out : String)
    (h : enc (Json.obj [("x", Json.num "1")]) (encOptsOf defaultOpts) = .ok out) :
    readFileE (runPart000 enc defaultArgs fsScenario).fs (outputDir ++ ["a.toon"]) =
      .ok out ∧
    Event.failLog "b.json" "Expected property name or closing brace in JSON" ∈
      (runPart000 enc defaultArgs fsScenario).events ∧
    Event.summary ⟨2, 1, 0, 1⟩ ∈ (runPart000 enc defaultArgs fsScenario).events ∧
    (runPart000 enc defaultArgs fsScenario).exit = 0 := by
  have hw : writeFileE fsScenario (outputDir ++ [stemOf "a.json" ++ ".toon"]) out =
      .ok (fsScenarioDone out) := rfl
  have hA : processEntry enc defaultOpts fsScenario ConversionStats.zero "a.json" =
      ⟨fsScenarioDone out, ⟨1, 1, 0, 0⟩, [],
        [.statOp (inputDir ++ ["a.json"]), .readOp (inputDir ++ ["a.json"]),
         .writeOp (outputDir ++ ["a.toon"])]⟩ :=
    processEntry_ok enc defaultOpts fsScenario ConversionStats.zero "a.json"
      "\x7b\"x\":1\x7d" (Json.obj [("x", Json.num "1")]) out (fsScenarioDone out)
      rfl rfl rfl rfl h hw
  have hB : processEntry enc defaultOpts (fsScenarioDone out) ⟨1, 1, 0, 0⟩ "b.json" =
      ⟨fsScenarioDone out, ⟨2, 1, 0, 1⟩,
        [.failLog "b.json" "Expected property name or closing brace in JSON"],
        [.statOp (inputDir ++ ["b.json"]), .readOp (inputDir ++ ["b.json"])]⟩ :=
    processEntry_parseFail enc defaultOpts (fsScenarioDone out) ⟨1, 1, 0, 0⟩ "b.json"
      "\x7bx:\x7d" "Expected property name or closing brace in JSON" rfl rfl rfl rfl
  have hLoop : runLoop enc defaultOpts fsScenario ConversionStats.zero
      ["a.json", "b.json"] =
      ⟨fsScenarioDone out, ⟨2, 1, 0, 1⟩,
        [.failLog "b.json" "Expected property name or closing brace in JSON"],
        [.statOp (inputDir ++ ["a.json"]), .readOp (inputDir ++ ["a.json"]),
         .writeOp (outputDir ++ ["a.toon"]),
         .statOp (inputDir ++ ["b.json"]), .readOp (inputDir ++ ["b.json"])]⟩ := by
    simp only [runLoop, hA, hB]
    rfl
  have hfs : (runPart000 enc defaultArgs fsScenario).fs = fsScenarioDone out := by
    show (runLoop enc defaultOpts fsScenario ConversionStats.zero
      ["a.json", "b.json"]).fs = _
    rw [hLoop]
  have hev : (runPart000 enc defaultArgs fsScenario).events =
      [.failLog "b.json" "Expected property name or closing brace in JSON",
       .summary ⟨2, 1, 0, 1⟩] := by
    show (runLoop enc defaultOpts fsScenario ConversionStats.zero
        ["a.json", "b.json"]).events ++
      logSummary (runLoop enc defaultOpts fsScenario ConversionStats.zero
        ["a.json", "b.json"]).stats = _
    rw [hLoop]
    rfl
  refine ⟨?_, ?_, ?_, rfl⟩
  · rw [hfs]
    rfl
  · rw [hev]
    simp
  · rw [hev]
    simp

/-- Witness for `c2_scenario_eval` at the stand-in encoder. -/
theorem c2_scenario_eval_witness :
    readFileE (runPart000 encStub defaultArgs fsScenario).fs (outputDir ++ ["a.toon"]) =
      .ok "ENC" ∧
    Event.failLog "b.json" "Expected property name or closing brace in JSON" ∈
      (runPart000 encStub defaultArgs fsScenario).events ∧
    Event.summary ⟨2, 1, 0, 1⟩ ∈ (runPart000 encStub defaultArgs fsScenario).events ∧
    (runPart000 encStub defaultArgs fsScenario).exit = 0 :=
  c2_scenario_eval encStub "ENC" rfl

/-! ## Workspace-creation lemmas -/

theorem fileExists_mkdirRec (fs : FS) (p q : Path) :
    fileExists (mkdirRec fs p) q = fileExists fs q := rfl

theorem dirExists_mkdirRec (fs : FS) (p q : Path) :
    dirExists (mkdirRec fs p) q = (dirExists fs q || (prefixesOf p).contains q) := by
  rw [Bool.eq_iff_iff]
  simp only [dirExists, mkdirRec, Bool.or_eq_true, beq_iff_eq, List.elem_iff,
    List.mem_append, List.mem_filter, Bool.not_eq_true']
  constructor
  · rintro (h | (⟨h1, h2⟩ | h))
    · exact Or.inl (Or.inl h)
    · exact Or.inr h1
    · exact Or.inl (Or.inr h)
  · rintro ((h | h) | h)
    · exact Or.inl h
    · exact Or.inr (Or.inr h)
    · by_cases hd : dirExists fs q
      · rcases (by simpa [dirExists] using hd : q = [] ∨ q ∈ fs.dirs) with h' | h'
        · exact Or.inl h'
        · exact Or.inr (Or.inr h')
      · exact Or.inr (Or.inl ⟨h, by simpa [dirExists] using hd⟩)

theorem fileExists_rmRecForce (fs : FS) (p q : Path) :
    fileExists (rmRecForce fs p) q = (fileExists fs q && !(p.isPrefixOf q)) := by
  rw [Bool.eq_iff_iff]
  simp only [fileExists, rmRecForce, List.any_filter, List.any_eq_true, Bool.and_eq_true,
    Bool.not_eq_true', beq_iff_eq]
  constructor
  · rintro ⟨e, he, hp, hq⟩
    exact ⟨⟨e, he, hq⟩, hq ▸ hp⟩
  · rintro ⟨⟨e, he, hq⟩, hp⟩
    exact ⟨e, he, hq ▸ hp, hq⟩

theorem dirExists_rmRecForce (fs : FS) (p q : Path) :
    dirExists (rmRecForce fs p) q =
      (q == [] || (fs.dirs.contains q && !(p.isPrefixOf q))) := by
  rw [Bool.eq_iff_iff]
  simp only [dirExists, rmRecForce, Bool.or_eq_true, beq_iff_eq, List.elem_iff,
    List.mem_filter, Bool.and_eq_true, Bool.not_eq_true']

/-! ## Claim C3 -/

/-- The empty workspace: neither directory exists yet. -/
def fsEmpty : FS := ⟨[], []⟩

/-- Claim C3 as stated, read over both variants: any run that passes option
validation and whose directory creation is not blocked leaves both workspace
directories existing, creating each if missing. -/
def ClaimC3 : Prop :=
  (∀ enc args fs, (parseCliOptions args).isOk = true →
    mkdirBlocked fs inputDir = false →
    mkdirBlocked (mkdirRec fs inputDir) outputDir = false →
    dirExists (runPart000 enc args fs).fs inputDir = true ∧
    dirExists (runPart000 enc args fs).fs outputDir = true) ∧
  (∀ enc fs, mkdirBlocked fs inputDir = false → mkdirBlocked fs outputDir = false →
    dirExists (runScript enc fs).fs inputDir = true ∧
    dirExists (runScript enc fs).fs outputDir = true)

/-- Claim C3 is false for the `convert-json-to-toon.ts` variant: on the
empty workspace the run terminates with exit 1 without creating the missing
input directory. -/
theorem c3_counterexample : ¬ ClaimC3 := by
  intro h
  have h2 := (h.2 encStub fsEmpty rfl rfl).1
  exact absurd h2 (by decide)

/-- Claim C3 amended: `part_000`'s `ensureWorkspace` does guarantee both
directories exist before enumeration, creating them recursively and never
failing when the workspace paths are not shadowed by regular files (in
particular when the directories already exist); the script variant creates
a missing output directory, but a missing input directory makes it
terminate with exit status 1 without creating anything and without
enumerating. -/
theorem dirExists_workspaceFS_input (fs : FS) :
    dirExists (workspaceFS fs) inputDir = true := by
  unfold workspaceFS
  rw [dirExists_mkdirRec, dirExists_mkdirRec,
    show prefixesOf inputDir = [inputDir] from rfl]
  simp [List.elem_iff]

theorem dirExists_workspaceFS_output (fs : FS) :
    dirExists (workspaceFS fs) outputDir = true := by
  unfold workspaceFS
  rw [dirExists_mkdirRec, show prefixesOf outputDir = [outputDir] from rfl]
  simp [List.elem_iff]

theorem dirExists_emptyOutputDir_input (fs : FS) :
    dirExists (emptyOutputDir fs) inputDir = dirExists fs inputDir := by
  unfold emptyOutputDir
  rw [dirExists_mkdirRec, dirExists_rmRecForce,
    show prefixesOf outputDir = [outputDir] from rfl,
    show outputDir.isPrefixOf inputDir = false from rfl]
  simp [dirExists, List.elem_iff, inputDir, outputDir]

theorem dirExists_emptyOutputDir_output (fs : FS) :
    dirExists (emptyOutputDir fs) outputDir = true := by
  unfold emptyOutputDir
  rw [dirExists_mkdirRec, show prefixesOf outputDir = [outputDir] from rfl]
  simp [List.elem_iff]

theorem c3_workspace_amended :
    (∀ fs opts, dirExists (workspaceFS fs) inputDir = true ∧
      dirExists (workspaceFS fs) outputDir = true ∧
      dirExists (cleanStage opts (workspaceFS fs)) inputDir = true ∧
      dirExists (cleanStage opts (workspaceFS fs)) outputDir = true) ∧
    (∀ fs, fileExists fs inputDir = false → fileExists fs outputDir = false →
      mkdirBlocked fs inputDir = false ∧
      mkdirBlocked (mkdirRec fs inputDir) outputDir = false) ∧
    (∀ fs, existsSync fs outputDir = false →
      dirExists (scriptEnsureOutput fs) outputDir = true) ∧
    (∀ enc fs, existsSync fs inputDir = false →
      runScript enc fs = ⟨fs, [.scriptInputMissing], [.existsOp inputDir], 1⟩) := by
  refine ⟨?_, ?_, ?_, ?_⟩
  · intro fs opts
    refine ⟨dirExists_workspaceFS_input fs, dirExists_workspaceFS_output fs, ?_, ?_⟩ <;>
      unfold cleanStage <;> by_cases hc : opts.clean = true
    · rw [if_pos hc, dirExists_emptyOutputDir_input, dirExists_workspaceFS_input]
    · rw [if_neg hc, dirExists_workspaceFS_input]
    · rw [if_pos hc, dirExists_emptyOutputDir_output]
    · rw [if_neg hc, dirExists_workspaceFS_output]
  · intro fs hfi hfo
    constructor
    · unfold mkdirBlocked
      rw [show prefixesOf inputDir = [inputDir] from rfl]
      simp [hfi]
    · unfold mkdirBlocked
      rw [show prefixesOf outputDir = [outputDir] from rfl]
      simp [fileExists_mkdirRec, hfo]
  · intro fs h
    unfold scriptEnsureOutput
    rw [if_neg (by simp [h]), dirExists_mkdirRec,
      show prefixesOf outputDir = [outputDir] from rfl]
    simp [List.elem_iff]
  · intro enc fs h
    simp [runScript, h]

/-- Witness for `c3_workspace_amended` at the empty workspace. -/
theorem c3_workspace_amended_witness :
    (dirExists (workspaceFS fsEmpty) inputDir = true ∧
      dirExists (workspaceFS fsEmpty) outputDir = true ∧
      dirExists (cleanStage defaultOpts (workspaceFS fsEmpty)) inputDir = true ∧
      dirExists (cleanStage defaultOpts (workspaceFS fsEmpty)) outputDir = true) ∧
    (mkdirBlocked fsEmpty inputDir = false ∧
      mkdirBlocked (mkdirRec fsEmpty inputDir) outputDir = false) ∧
    dirExists (scriptEnsureOutput fsEmpty) outputDir = true ∧
    runScript encStub fsEmpty = ⟨fsEmpty, [.scriptInputMissing], [.existsOp inputDir], 1⟩ :=
  ⟨c3_workspace_amended.1 fsEmpty defaultOpts,
   c3_workspace_amended.2.1 fsEmpty rfl rfl,
   c3_workspace_amended.2.2.1 fsEmpty rfl,
   c3_workspace_amended.2.2.2 encStub fsEmpty rfl⟩

/-! ## Claim C4 -/

/-- A name ending in `.json` case-sensitively also ends in it after
lowercasing. -/
theorem endsWithJsonCI_of_endsWith {n : String} (h : jsEndsWith n ".json" = true) :
    endsWithJsonCI n = true := by
  unfold jsEndsWith at h
  unfold endsWithJsonCI jsEndsWith lowerStr
  rw [List.isSuffixOf_iff_suffix] at h ⊢
  obtain ⟨t, ht⟩ := h
  refine ⟨t.map Char.toLower, ?_⟩
  show t.map Char.toLower ++ ".json".toList = n.toList.map Char.toLower
  have e : (t ++ ".json".toList).map Char.toLower =
      t.map Char.toLower ++ ".json".toList := by
    rw [List.map_append]
    rfl
  rw [← e, ht]

/-- An input workspace holding a subdirectory `sub`, a non-JSON file
`note.txt` and a convertible `a.json`. -/
def fsMixed : FS :=
  ⟨[inputDir, outputDir, ["input_json", "sub"]],
    [(["input_json", "note.txt"], "hello"),
     (["input_json", "a.json"], "\x7b\"x\":1\x7d")]⟩

/-- Claim C4: an enumerated entry that is not a regular file, or whose name
does not end in `.json` case-insensitively, is counted as skipped (and only
skipped), leaves the filesystem untouched, triggers no read or write, and
its processing is independent of the encoder; in the script variant such an
entry never appears in `getJsonFiles`, the only list the conversion loop
consumes. -/
theorem c4_skipped_never_encoded (enc enc' : Encoder) (opts : CliOptions) (fs : FS)
    (stats : ConversionStats) (n : String)
    (h : statOf fs (inputDir ++ [n]) ≠ .file ∨ endsWithJsonCI n = false) :
    (processEntry enc opts fs stats n = processEntry enc' opts fs stats n ∧
      (processEntry enc opts fs stats n).fs = fs ∧
      (processEntry enc opts fs stats n).stats.skipped = stats.skipped + 1 ∧
      (processEntry enc opts fs stats n).stats.converted = stats.converted ∧
      (processEntry enc opts fs stats n).stats.failed = stats.failed ∧
      (processEntry enc opts fs stats n).ops = [.statOp (inputDir ++ [n])]) ∧
    (∀ files, getJsonFiles fs inputDir = some files → (inputDir ++ [n]) ∉ files) := by
  constructor
  · by_cases hf : statOf fs (inputDir ++ [n]) = .file
    · have hj : endsWithJsonCI n = false := by
        rcases h with h | h
        · exact absurd hf h
        · exact h
      rw [processEntry_notJson enc opts fs stats n hf hj,
        processEntry_notJson enc' opts fs stats n hf hj]
      exact ⟨rfl, rfl, rfl, rfl, rfl, rfl⟩
    · rw [processEntry_notFile enc opts fs stats n hf,
        processEntry_notFile enc' opts fs stats n hf]
      exact ⟨rfl, rfl, rfl, rfl, rfl, rfl⟩
  · intro files hgj hmem
    unfold getJsonFiles at hgj
    cases hr : readdirNames fs inputDir with
    | none =>
      rw [hr] at hgj
      exact Option.noConfusion hgj
    | some entries =>
      rw [hr] at hgj
      cases hgj
      obtain ⟨m, hm, he⟩ := List.mem_map.mp hmem
      have hmn : m = n := by simpa using he
      subst hmn
      have hp := (List.mem_filter.mp hm).2
      rw [Bool.and_eq_true] at hp
      rcases h with h | h
      · exact h (by simpa using hp.1)
      · have hci := endsWithJsonCI_of_endsWith hp.2
        rw [h] at hci
        exact absurd hci (by simp)

/-- Witness for `c4_skipped_never_encoded` at the entry `note.txt` of
`fsMixed` (a regular file that is not `.json`). -/
theorem c4_skipped_never_encoded_witness :
    (processEntry encStub defaultOpts fsMixed ConversionStats.zero "note.txt" =
        processEntry encStubFail defaultOpts fsMixed ConversionStats.zero "note.txt" ∧
      (processEntry encStub defaultOpts fsMixed ConversionStats.zero "note.txt").fs =
        fsMixed ∧
      (processEntry encStub defaultOpts fsMixed
        ConversionStats.zero "note.txt").stats.skipped = ConversionStats.zero.skipped + 1 ∧
      (processEntry encStub defaultOpts fsMixed
        ConversionStats.zero "note.txt").stats.converted = ConversionStats.zero.converted ∧
      (processEntry encStub defaultOpts fsMixed
        ConversionStats.zero "note.txt").stats.failed = ConversionStats.zero.failed ∧
      (processEntry encStub defaultOpts fsMixed ConversionStats.zero "note.txt").ops =
        [.statOp (inputDir ++ ["note.txt"])]) ∧
    (inputDir ++ ["note.txt"]) ∉ [inputDir ++ ["a.json"]] := by
  have h := c4_skipped_never_encoded encStub encStubFail defaultOpts fsMixed
    ConversionStats.zero "note.txt" (Or.inr (by decide))
  exact ⟨h.1, h.2 [inputDir ++ ["a.json"]] rfl⟩

/-! ## Claim C5 -/

/-- `--indent ""`: a provided but empty value. -/
def argsIndentEmpty : Args := ⟨some "", none, none, none, false, false⟩

/-- Claim C5 as stated: whenever `--indent` is provided with a value that
does not parse to a non-negative integer, option resolution fails; the
default is 2 when the option is absent; and a resolution error surfaces
before any filesystem operation. -/
def ClaimC5 : Prop :=
  (∀ a s, a.indent = some s → ¬(∃ k, parseIntJS s = some k ∧ 0 ≤ k) →
    (parseCliOptions a).isOk = false) ∧
  (∀ a o, a.indent = none → parseCliOptions a = .ok o → o.indent = 2) ∧
  (∀ enc a fs e, parseCliOptions a = .error e →
    runPart000 enc a fs = ⟨fs, [.fatal e], [], 1⟩)

/-- Claim C5 is false at `--indent ""`: the empty string is not a
non-negative integer (`parseInt` yields NaN), yet resolution succeeds,
because the JavaScript truthiness test treats the empty string like an
absent value. -/
theorem c5_counterexample : ¬ ClaimC5 := by
  intro h
  have h1 := h.1 argsIndentEmpty "" rfl
    (by
      rintro ⟨k, hk, -⟩
      rw [show parseIntJS "" = none from rfl] at hk
      exact Option.noConfusion hk)
  exact absurd h1 (by decide)

theorem parseCliOptions_ok_indent (a : Args) (o : CliOptions)
    (h : parseCliOptions a = .ok o) :
    resolvedIndent a = some o.indent ∧ 0 ≤ o.indent := by
  unfold parseCliOptions at h
  cases hr : resolvedIndent a with
  | none =>
    rw [hr] at h
    exact absurd h (by simp)
  | some k =>
    rw [hr] at h
    dsimp only at h
    by_cases h0 : k < 0
    · rw [if_pos h0] at h
      exact absurd h (by simp)
    · rw [if_neg h0] at h
      have hk : o.indent = k := by
        split at h
        · split at h
          · exact absurd h (by simp)
          · split at h
            · split at h
              · exact absurd h (by simp)
              · split at h
                · exact absurd h (by simp)
                · cases h
                  rfl
            · cases h
              rfl
        · exact absurd h (by simp)
      rw [hk]
      exact ⟨rfl, Int.not_lt.mp h0⟩

/-- Claim C5 amended: a non-empty `--indent` value failing to parse to a
non-negative integer makes option resolution fail; an empty value behaves
like an absent one (default 2); on success the resolved indent is the
parsed value and is non-negative; and any resolution error terminates the
run with exit 1 before any filesystem operation (empty operation trace,
filesystem returned untouched). -/
theorem c5_indent_validation_amended :
    (∀ a s, a.indent = some s → s ≠ "" → parseIntJS s = none →
      (parseCliOptions a).isOk = false) ∧
    (∀ a s k, a.indent = some s → s ≠ "" → parseIntJS s = some k → k < 0 →
      (parseCliOptions a).isOk = false) ∧
    (∀ a o, parseCliOptions a = .ok o →
      ((a.indent = none ∨ a.indent = some "") → o.indent = 2) ∧
      (∀ s k, a.indent = some s → s ≠ "" → parseIntJS s = some k → o.indent = k) ∧
      0 ≤ o.indent) ∧
    (∀ enc a fs e, parseCliOptions a = .error e →
      runPart000 enc a fs = ⟨fs, [.fatal e], [], 1⟩) := by
  refine ⟨?_, ?_, ?_, ?_⟩
  · intro a s ha hs hn
    unfold parseCliOptions resolvedIndent
    rw [ha]
    dsimp only
    rw [if_neg hs, hn]
    rfl
  · intro a s k ha hs hk h0
    unfold parseCliOptions resolvedIndent
    rw [ha]
    dsimp only
    rw [if_neg hs, hk]
    dsimp only
    rw [if_pos h0]
    rfl
  · intro a o h
    obtain ⟨h1, h2⟩ := parseCliOptions_ok_indent a o h
    refine ⟨?_, ?_, h2⟩
    · rintro (ha | ha) <;>
        · unfold resolvedIndent at h1
          rw [ha] at h1
          simp at h1
          omega
    · intro s k ha hs hk
      unfold resolvedIndent at h1
      rw [ha] at h1
      dsimp only at h1
      rw [if_neg hs, hk] at h1
      exact (Option.some.injEq _ _ ▸ h1).symm
  · intro enc a fs e h
    unfold runPart000
    rw [h]

/-- Witness for `c5_indent_validation_amended` at `--indent x`,
`--indent -1` and the defaulted arguments. -/
theorem c5_indent_validation_amended_witness :
    (parseCliOptions ⟨some "x", none, none, none, false, false⟩).isOk = false ∧
    (parseCliOptions ⟨some "-1", none, none, none, false, false⟩).isOk = false ∧
    (defaultOpts.indent = 2 ∧ 0 ≤ defaultOpts.indent) ∧
    runPart000 encStub ⟨some "-1", none, none, none, false, false⟩ fsEmpty =
      ⟨fsEmpty, [.fatal "--indent must be a non-negative integer"], [], 1⟩ := by
  refine ⟨?_, ?_, ⟨?_, ?_⟩, ?_⟩
  · exact c5_indent_validation_amended.1 ⟨some "x", none, none, none, false, false⟩
      "x" rfl (by decide) rfl
  · exact c5_indent_validation_amended.2.1 ⟨some "-1", none, none, none, false, false⟩
      "-1" (-1) rfl (by decide) (by decide) (by decide)
  · exact (c5_indent_validation_amended.2.2.1 defaultArgs defaultOpts rfl).1 (Or.inl rfl)
  · exact (c5_indent_validation_amended.2.2.1 defaultArgs defaultOpts rfl).2.2
  · exact c5_indent_validation_amended.2.2.2 encStub
      ⟨some "-1", none, none, none, false, false⟩ fsEmpty
      "--indent must be a non-negative integer" rfl

/-! ## Claim C6 -/

/-- Claim C6: for a processable `.json` entry, a JSON parse failure or an
encoder rejection yields exactly a `failed` outcome carrying the reason,
with the filesystem untouched, and the loop gives every enumerated entry
exactly one outcome (the three outcome counters together grow by exactly
the number of entries), so a single failing file never aborts the run. -/
theorem c6_per_entry_failure_isolated :
    (∀ enc opts fs stats n raw e, statOf fs (inputDir ++ [n]) = .file →
      endsWithJsonCI n = true →
      readFileE fs (inputDir ++ [n]) = .ok raw → jsonParse raw = .error e →
      processEntry enc opts fs stats n =
        ⟨fs, ⟨stats.processed + 1, stats.converted, stats.skipped, stats.failed + 1⟩,
         [.failLog n e], [.statOp (inputDir ++ [n]), .readOp (inputDir ++ [n])]⟩) ∧
    (∀ enc opts fs stats n raw d e, statOf fs (inputDir ++ [n]) = .file →
      endsWithJsonCI n = true →
      readFileE fs (inputDir ++ [n]) = .ok raw → jsonParse raw = .ok d →
      enc d (encOptsOf opts) = .error e →
      processEntry enc opts fs stats n =
        ⟨fs, ⟨stats.processed + 1, stats.converted, stats.skipped, stats.failed + 1⟩,
         [.failLog n e], [.statOp (inputDir ++ [n]), .readOp (inputDir ++ [n])]⟩) ∧
    (∀ enc opts fs stats names,
      (runLoop enc opts fs stats names).stats.converted +
        (runLoop enc opts fs stats names).stats.skipped +
        (runLoop enc opts fs stats names).stats.failed =
      stats.converted + stats.skipped + stats.failed + names.length) := by
  refine ⟨?_, ?_, ?_⟩
  · intro enc opts fs stats n raw e h1 h2 h3 h4
    exact processEntry_parseFail enc opts fs stats n raw e h1 h2 h3 h4
  · intro enc opts fs stats n raw d e h1 h2 h3 h4 h5
    exact processEntry_encFail enc opts fs stats n raw d e h1 h2 h3 h4 h5
  · intro enc opts fs stats names
    obtain ⟨-, hs, hcf⟩ := runLoop_stats enc opts names fs stats
    have hlen := List.length_eq_countP_add_countP
      (fun n => statOf fs (inputDir ++ [n]) == .file && endsWithJsonCI n) names
    have hnot : names.countP
        (fun a => decide ¬(statOf fs (inputDir ++ [a]) == .file && endsWithJsonCI a) = true) =
        names.countP
        (fun n => !(statOf fs (inputDir ++ [n]) == .file && endsWithJsonCI n)) :=
      List.countP_congr (fun m _ => by simp)
    omega

/-- Witness for `c6_per_entry_failure_isolated`: a parse failure on
`b.json` of `fsBadOnly`, an encoder rejection on `a.json` of `fsGoodOnly`,
and the outcome totals of the scenario run. -/
theorem c6_per_entry_failure_isolated_witness :
    processEntry encStub defaultOpts fsBadOnly ConversionStats.zero "b.json" =
      ⟨fsBadOnly, ⟨1, 0, 0, 1⟩,
       [.failLog "b.json" "Expected property name or closing brace in JSON"],
       [.statOp (inputDir ++ ["b.json"]), .readOp (inputDir ++ ["b.json"])]⟩ ∧
    processEntry encStubFail defaultOpts fsGoodOnly ConversionStats.zero "a.json" =
      ⟨fsGoodOnly, ⟨1, 0, 0, 1⟩,
       [.failLog "a.json" "unsupported structure"],
       [.statOp (inputDir ++ ["a.json"]), .readOp (inputDir ++ ["a.json"])]⟩ ∧
    (runLoop encStub defaultOpts fsScenario ConversionStats.zero
        ["a.json", "b.json"]).stats.converted +
      (runLoop encStub defaultOpts fsScenario ConversionStats.zero
        ["a.json", "b.json"]).stats.skipped +
      (runLoop encStub defaultOpts fsScenario ConversionStats.zero
        ["a.json", "b.json"]).stats.failed = 0 + 0 + 0 + 2 := by
  refine ⟨?_, ?_, ?_⟩
  · exact c6_per_entry_failure_isolated.1 encStub defaultOpts fsBadOnly
      ConversionStats.zero "b.json" "\x7bx:\x7d"
      "Expected property name or closing brace in JSON" rfl rfl rfl rfl
  · exact c6_per_entry_failure_isolated.2.1 encStubFail defaultOpts fsGoodOnly
      ConversionStats.zero "a.json" "\x7b\"x\":1\x7d" (Json.obj [("x", Json.num "1")])
      "unsupported structure" rfl rfl rfl rfl rfl
  · exact c6_per_entry_failure_isolated.2.2 encStub defaultOpts fsScenario
      ConversionStats.zero ["a.json", "b.json"]

/-! ## Claim C7 -/

/-- A workspace whose input directory exists but holds nothing. -/
def fsEmptyInput : FS := ⟨[inputDir, outputDir], []⟩

/-- Claim C7: when the input directory enumerates to no entries at all,
both variants print an informational message and terminate with exit
status 0 without printing the end-of-run summary. -/
theorem c7_empty_input_no_summary :
    (∀ enc args opts fs, parseCliOptions args = .ok opts →
      mkdirBlocked fs inputDir = false →
      mkdirBlocked (mkdirRec fs inputDir) outputDir = false →
      readdirNames (cleanStage opts (workspaceFS fs)) inputDir = some [] →
      (runPart000 enc args fs).exit = 0 ∧
      (runPart000 enc args fs).events = [.warnNoFiles] ∧
      ∀ st, Event.summary st ∉ (runPart000 enc args fs).events) ∧
    (∀ enc fs, existsSync fs inputDir = true →
      readdirNames (scriptEnsureOutput fs) inputDir = some [] →
      (runScript enc fs).exit = 0 ∧
      Event.scriptNoFiles ∈ (runScript enc fs).events ∧
      ∀ s f, Event.scriptSummary s f ∉ (runScript enc fs).events) := by
  constructor
  · intro enc args opts fs hpc h1 h2 hrd
    have hrun : runPart000 enc args fs = ⟨cleanStage opts (workspaceFS fs), [.warnNoFiles],
        [FSOp.mkdirOp inputDir, FSOp.mkdirOp outputDir] ++
          (if opts.clean then [FSOp.rmOp outputDir, FSOp.mkdirOp outputDir] else []) ++
          [FSOp.readdirOp inputDir], 0⟩ := by
      unfold runPart000
      rw [hpc]
      dsimp only
      rw [if_neg (show ¬mkdirBlocked fs inputDir = true by simp [h1]),
        if_neg (show ¬mkdirBlocked (mkdirRec fs inputDir) outputDir = true by simp [h2]),
        hrd]
      rfl
    rw [hrun]
    exact ⟨rfl, rfl, by simp⟩
  · intro enc fs hex hrd
    have hgj : getJsonFiles (scriptEnsureOutput fs) inputDir = some [] := by
      unfold getJsonFiles
      rw [hrd]
      rfl
    have hrun : runScript enc fs = ⟨scriptEnsureOutput fs,
        (if existsSync fs outputDir then [] else [.scriptCreatedOutput]) ++ [.scriptNoFiles],
        [FSOp.existsOp inputDir, FSOp.existsOp outputDir] ++
          (if existsSync fs outputDir then [] else [FSOp.mkdirOp outputDir]) ++
          [FSOp.readdirOp inputDir], 0⟩ := by
      unfold runScript
      rw [if_neg (show ¬(!existsSync fs inputDir) = true by simp [hex])]
      dsimp only
      rw [hgj]
      rfl
    rw [hrun]
    refine ⟨rfl, by simp, ?_⟩
    intro s f
    by_cases ho : existsSync fs outputDir = true <;> simp [ho]

/-- Witness for `c7_empty_input_no_summary` on the empty input directory. -/
theorem c7_empty_input_no_summary_witness :
    ((runPart000 encStub defaultArgs fsEmptyInput).exit = 0 ∧
      (runPart000 encStub defaultArgs fsEmptyInput).events = [.warnNoFiles] ∧
      Event.summary ⟨0, 0, 0, 0⟩ ∉ (runPart000 encStub defaultArgs fsEmptyInput).events) ∧
    ((runScript encStub fsEmptyInput).exit = 0 ∧
      Event.scriptNoFiles ∈ (runScript encStub fsEmptyInput).events ∧
      Event.scriptSummary 0 1 ∉ (runScript encStub fsEmptyInput).events) := by
  have h1 := c7_empty_input_no_summary.1 encStub defaultArgs defaultOpts fsEmptyInput
    rfl rfl rfl rfl
  have h2 := c7_empty_input_no_summary.2 encStub fsEmptyInput rfl rfl
  exact ⟨⟨h1.1, h1.2.1, h1.2.2 ⟨0, 0, 0, 0⟩⟩, ⟨h2.1, h2.2.1, h2.2.2 0 1⟩⟩

/-! ## Claim C8 -/

theorem fileExists_emptyOutputDir (fs : FS) (p : Path)
    (hp : outputDir.isPrefixOf p = true) :
    fileExists (emptyOutputDir fs) p = false := by
  unfold emptyOutputDir
  rw [fileExists_mkdirRec, fileExists_rmRecForce, hp]
  simp

theorem dirExists_emptyOutputDir_under (fs : FS) (p : Path)
    (hp : outputDir.isPrefixOf p = true) (hne : p ≠ outputDir) :
    dirExists (emptyOutputDir fs) p = false := by
  have hnil : p ≠ [] := by
    rw [List.isPrefixOf_iff_prefix] at hp
    obtain ⟨t, ht⟩ := hp
    rw [← ht]
    simp [outputDir]
  unfold emptyOutputDir
  rw [dirExists_mkdirRec, dirExists_rmRecForce, hp,
    show prefixesOf outputDir = [outputDir] from rfl]
  simp [hnil, hne]

/-- A pre-populated output directory holding a stale file, plus one live
input. -/
def fsStale : FS :=
  ⟨[inputDir, outputDir],
    [(["output_toon", "stale.toon"], "old"),
     (["input_json", "a.json"], "\x7b\"x\":1\x7d")]⟩

/-- Claim C8: `emptyOutputDir` (total, hence succeeding even when the
output directory did not exist) leaves the output directory existing and
empty; under `--clean` the run's final filesystem is the entry loop applied
to the cleaned workspace (so the cleaning happens before any entry is
processed), and any stale file whose name is not derived from an enumerated
input entry no longer exists after the run. -/
theorem c8_clean_removes_stale :
    (∀ fs, dirExists (emptyOutputDir fs) outputDir = true ∧
      (∀ p, outputDir.isPrefixOf p = true → p ≠ outputDir →
        fileExists (emptyOutputDir fs) p = false ∧
        dirExists (emptyOutputDir fs) p = false)) ∧
    (∀ enc args opts fs names, parseCliOptions args = .ok opts → opts.clean = true →
      mkdirBlocked fs inputDir = false →
      mkdirBlocked (mkdirRec fs inputDir) outputDir = false →
      readdirNames (emptyOutputDir (workspaceFS fs)) inputDir = some names →
      (runPart000 enc args fs).fs =
        (runLoop enc opts (emptyOutputDir (workspaceFS fs)) ConversionStats.zero names).fs ∧
      (∀ b, (∀ n ∈ names, stemOf n ++ ".toon" ≠ b) →
        fileExists (runPart000 enc args fs).fs (outputDir ++ [b]) = false)) := by
  constructor
  · intro fs
    exact ⟨dirExists_emptyOutputDir_output fs, fun p hp hne =>
      ⟨fileExists_emptyOutputDir fs p hp, dirExists_emptyOutputDir_under fs p hp hne⟩⟩
  · intro enc args opts fs names hpc hc h1 h2 hrd
    have hclean : cleanStage opts (workspaceFS fs) = emptyOutputDir (workspaceFS fs) := by
      unfold cleanStage
      rw [if_pos hc]
    have hrun : (runPart000 enc args fs).fs =
        (runLoop enc opts (emptyOutputDir (workspaceFS fs)) ConversionStats.zero names).fs := by
      unfold runPart000
      rw [hpc]
      dsimp only
      rw [if_neg (show ¬mkdirBlocked fs inputDir = true by simp [h1]),
        if_neg (show ¬mkdirBlocked (mkdirRec fs inputDir) outputDir = true by simp [h2]),
        hclean, hrd]
      dsimp only
      by_cases hn : names.isEmpty = true
      · rw [if_pos hn]
        rw [List.isEmpty_iff] at hn
        subst hn
        rfl
      · rw [if_neg hn]
    refine ⟨hrun, ?_⟩
    intro b hb
    rw [hrun]
    cases hfe : fileExists
        (runLoop enc opts (emptyOutputDir (workspaceFS fs)) ConversionStats.zero names).fs
        (outputDir ++ [b]) with
    | false => rfl
    | true =>
      exfalso
      rcases runLoop_fileExists_source enc opts names (emptyOutputDir (workspaceFS fs))
          ConversionStats.zero (outputDir ++ [b]) hfe with h | ⟨n, hn, he⟩
      · rw [fileExists_emptyOutputDir (workspaceFS fs) (outputDir ++ [b])
          (output_prefix_output [b])] at h
        exact Bool.false_ne_true h
      · have hbn : b = stemOf n ++ ".toon" := by simpa using he
        exact hb n hn hbn.symm

/-- Witness for `c8_clean_removes_stale` on a stale `stale.toon` with one
live input `a.json`. -/
theorem c8_clean_removes_stale_witness :
    (dirExists (emptyOutputDir fsEmpty) outputDir = true ∧
      fileExists (emptyOutputDir fsStale) (outputDir ++ ["stale.toon"]) = false ∧
      dirExists (emptyOutputDir fsStale) (outputDir ++ ["stale.toon"]) = false) ∧
    fileExists (runPart000 encStub ⟨none, none, none, none, true, false⟩ fsStale).fs
      (outputDir ++ ["stale.toon"]) = false := by
  have h1 := c8_clean_removes_stale.1 fsEmpty
  have h1b := (c8_clean_removes_stale.1 fsStale).2 (outputDir ++ ["stale.toon"])
    (output_prefix_output ["stale.toon"]) (by decide)
  have h2 := c8_clean_removes_stale.2 encStub ⟨none, none, none, none, true, false⟩
    ⟨2, ",", .off, none, true, false⟩ fsStale ["a.json"] rfl rfl rfl rfl rfl
  exact ⟨⟨h1.1, h1b.1, h1b.2⟩, h2.2 "stale.toon" (by decide)⟩

/-! ## Claim C9 -/

theorem countP_not_and {α : Type} (l : List α) (p q : α → Bool) :
    l.countP (fun a => !(p a && q a)) =
      l.countP (fun a => !(p a)) + l.countP (fun a => p a && !(q a)) := by
  induction l with
  | nil => rfl
  | cons x xs ih =>
    simp only [List.countP_cons, ih]
    by_cases hp : p x = true <;> by_cases hq : q x = true <;> simp [hp, hq] <;> omega

/-- Claim C9: at every loop boundary (after processing any prefix of the
enumerated names, starting from zeroed statistics) the counters satisfy
`converted + failed ≤ processed ≤ converted + failed + skipped`; moreover
`processed` counts exactly the entries whose stat check said regular file,
and `skipped` counts the non-regular entries (excluded from `processed`)
plus the regular ones whose name is not `.json` case-insensitively. -/
theorem c9_stats_invariant (enc : Encoder) (opts : CliOptions) (fs : FS)
    (names : List String) (k : Nat) :
    ((runLoop enc opts fs ConversionStats.zero (names.take k)).stats.converted +
        (runLoop enc opts fs ConversionStats.zero (names.take k)).stats.failed ≤
      (runLoop enc opts fs ConversionStats.zero (names.take k)).stats.processed) ∧
    ((runLoop enc opts fs ConversionStats.zero (names.take k)).stats.processed ≤
      (runLoop enc opts fs ConversionStats.zero (names.take k)).stats.converted +
        (runLoop enc opts fs ConversionStats.zero (names.take k)).stats.failed +
        (runLoop enc opts fs ConversionStats.zero (names.take k)).stats.skipped) ∧
    ((runLoop enc opts fs ConversionStats.zero (names.take k)).stats.processed =
      (names.take k).countP (fun n => statOf fs (inputDir ++ [n]) == .file)) ∧
    ((runLoop enc opts fs ConversionStats.zero (names.take k)).stats.skipped =
      (names.take k).countP (fun n => !(statOf fs (inputDir ++ [n]) == .file)) +
      (names.take k).countP
        (fun n => statOf fs (inputDir ++ [n]) == .file && !(endsWithJsonCI n))) := by
  obtain ⟨hp, hs, hcf⟩ := runLoop_stats enc opts (names.take k) fs ConversionStats.zero
  have hsplit := countP_not_and (names.take k)
    (fun n => statOf fs (inputDir ++ [n]) == .file) (fun n => endsWithJsonCI n)
  have hmono : (names.take k).countP
      (fun n => statOf fs (inputDir ++ [n]) == .file && endsWithJsonCI n) ≤
      (names.take k).countP (fun n => statOf fs (inputDir ++ [n]) == .file) :=
    List.countP_mono_left (fun n _ h => by
      rw [Bool.and_eq_true] at h
      exact h.1)
  have hlen := List.length_eq_countP_add_countP
    (fun n => statOf fs (inputDir ++ [n]) == .file && endsWithJsonCI n) (names.take k)
  have hnot : (names.take k).countP (fun a =>
      decide ¬(statOf fs (inputDir ++ [a]) == .file && endsWithJsonCI a) = true) =
      (names.take k).countP
        (fun n => !(statOf fs (inputDir ++ [n]) == .file && endsWithJsonCI n)) :=
    List.countP_congr (fun m _ => by simp)
  have hplen := List.countP_le_length
    (p := fun n => statOf fs (inputDir ++ [n]) == .file) (l := names.take k)
  simp only [show ConversionStats.zero.processed = 0 from rfl,
    show ConversionStats.zero.converted = 0 from rfl,
    show ConversionStats.zero.skipped = 0 from rfl,
    show ConversionStats.zero.failed = 0 from rfl, Nat.zero_add] at hp hs hcf
  refine ⟨?_, ?_, ?_, ?_⟩
  · omega
  · omega
  · omega
  · rw [hs, hsplit]

/-! ## Claim C10 -/

/-- The frame discipline of a single filesystem operation: directory
listings target the input directory itself, reads and stat checks target
immediate entries of the input directory, writes target immediate entries
of the output directory, removal targets the output directory, and
directory creation and existence checks target only the two workspace
roots. -/
def opOk (op : FSOp) : Prop :=
  match op with
  | .readdirOp p => p = inputDir
  | .statOp p => ∃ n, p = inputDir ++ [n]
  | .readOp p => ∃ n, p = inputDir ++ [n]
  | .writeOp p => ∃ m, p = outputDir ++ [m]
  | .mkdirOp p => p = inputDir ∨ p = outputDir
  | .rmOp p => p = outputDir
  | .existsOp p => p = inputDir ∨ p = outputDir

theorem input_not_prefix_output (m : String) :
    inputDir.isPrefixOf (outputDir ++ [m]) = false := by rfl

theorem input_not_prefix_outputDir : inputDir.isPrefixOf outputDir = false := by rfl

theorem runLoop_ops_ok (enc : Encoder) (opts : CliOptions) :
    ∀ (names : List String) (fs : FS) (stats : ConversionStats) (op : FSOp),
      op ∈ (runLoop enc opts fs stats names).ops → opOk op := by
  intro names
  induction names with
  | nil =>
    intro fs stats op h
    simp [runLoop] at h
  | cons n rest ih =>
    intro fs stats op h
    have h' : op ∈ (processEntry enc opts fs stats n).ops ∨
        op ∈ (runLoop enc opts (processEntry enc opts fs stats n).fs
          (processEntry enc opts fs stats n).stats rest).ops := by
      rw [show (runLoop enc opts fs stats (n :: rest)).ops =
        (processEntry enc opts fs stats n).ops ++
          (runLoop enc opts (processEntry enc opts fs stats n).fs
            (processEntry enc opts fs stats n).stats rest).ops from rfl] at h
      exact List.mem_append.mp h
    rcases h' with h' | h'
    · rcases (processEntry_spec enc opts fs stats n).2.2.1 with ho | ho | ho <;>
        rw [ho] at h'
      · simp at h'
        subst h'
        exact ⟨n, rfl⟩
      · simp at h'
        rcases h' with rfl | rfl
        · exact ⟨n, rfl⟩
        · exact ⟨n, rfl⟩
      · simp at h'
        rcases h' with rfl | rfl | rfl
        · exact ⟨n, rfl⟩
        · exact ⟨n, rfl⟩
        · exact ⟨stemOf n ++ ".toon", rfl⟩
    · exact ih _ _ op h'

theorem baseOps_ok (b : Bool) (op : FSOp)
    (h : op ∈ [FSOp.mkdirOp inputDir, FSOp.mkdirOp outputDir] ++
      (if b = true then [FSOp.rmOp outputDir, FSOp.mkdirOp outputDir] else []) ++
      [FSOp.readdirOp inputDir]) : opOk op := by
  by_cases hb : b = true <;> simp [hb] at h
  · rcases h with rfl | rfl | rfl | rfl | rfl
    · exact Or.inl rfl
    · exact Or.inr rfl
    · exact rfl
    · exact Or.inr rfl
    · exact rfl
  · rcases h with rfl | rfl | rfl
    · exact Or.inl rfl
    · exact Or.inr rfl
    · exact rfl

theorem preOps_ok (b : Bool) (op : FSOp)
    (h : op ∈ [FSOp.existsOp inputDir, FSOp.existsOp outputDir] ++
      (if b = true then [] else [FSOp.mkdirOp outputDir]) ++
      [FSOp.readdirOp inputDir]) : opOk op := by
  by_cases hb : b = true <;> simp [hb] at h
  · rcases h with rfl | rfl | rfl
    · exact Or.inl rfl
    · exact Or.inr rfl
    · exact rfl
  · rcases h with rfl | rfl | rfl | rfl
    · exact Or.inl rfl
    · exact Or.inr rfl
    · exact Or.inr rfl
    · exact rfl

theorem getJsonFiles_shape (fs : FS) (files : List Path)
    (h : getJsonFiles fs inputDir = some files) :
    ∀ p ∈ files, ∃ n, p = inputDir ++ [n] := by
  unfold getJsonFiles at h
  cases hr : readdirNames fs inputDir with
  | none =>
    rw [hr] at h
    exact Option.noConfusion h
  | some entries =>
    rw [hr] at h
    cases h
    intro p hp
    obtain ⟨m, hm, he⟩ := List.mem_map.mp hp
    exact ⟨m, he.symm⟩

theorem convertJsonToToon_ops (enc : Encoder) (fs : FS) (i o : Path) :
    (convertJsonToToon enc fs i o).2 = [FSOp.readOp i] ∨
    (convertJsonToToon enc fs i o).2 = [FSOp.readOp i, FSOp.writeOp o] := by
  unfold convertJsonToToon
  cases h1 : readFileE fs i with
  | error e => exact Or.inl rfl
  | ok c =>
    dsimp only
    cases h2 : jsonParse c with
    | error e => exact Or.inl rfl
    | ok d =>
      dsimp only
      cases h3 : enc d scriptEncOpts with
      | error e => exact Or.inl rfl
      | ok t =>
        dsimp only
        cases h4 : writeFileE fs o t with
        | error e => exact Or.inr rfl
        | ok fs2 => exact Or.inr rfl

theorem scriptLoop_ops_shape (enc : Encoder) :
    ∀ (inputs : List Path) (fs : FS) (op : FSOp),
      op ∈ (scriptLoop enc fs inputs).2.2.2.2 →
      ∃ p ∈ inputs, op = FSOp.readOp p ∨
        op = FSOp.writeOp (outputDir ++ [dropJsonSuffix (lastComponent p) ++ ".toon"]) := by
  intro inputs
  induction inputs with
  | nil =>
    intro fs op h
    simp [scriptLoop] at h
  | cons p rest ih =>
    intro fs op h
    rcases hc : convertJsonToToon enc fs p
        (outputDir ++ [dropJsonSuffix (lastComponent p) ++ ".toon"]) with ⟨res, ops⟩
    have hops := convertJsonToToon_ops enc fs p
      (outputDir ++ [dropJsonSuffix (lastComponent p) ++ ".toon"])
    rw [hc] at hops
    unfold scriptLoop at h
    dsimp only at h
    rw [hc] at h
    cases res with
    | ok fs2 =>
      dsimp only at h hops
      rcases List.mem_append.mp h with h | h
      · rcases hops with hops | hops <;> rw [hops] at h <;> simp at h
        · subst h
          exact ⟨p, List.mem_cons_self p rest, Or.inl rfl⟩
        · rcases h with rfl | rfl
          · exact ⟨p, List.mem_cons_self p rest, Or.inl rfl⟩
          · exact ⟨p, List.mem_cons_self p rest, Or.inr rfl⟩
      · obtain ⟨q, hq, hop⟩ := ih fs2 op h
        exact ⟨q, List.mem_cons_of_mem p hq, hop⟩
    | error e =>
      dsimp only at h hops
      rcases List.mem_append.mp h with h | h
      · rcases hops with hops | hops <;> rw [hops] at h <;> simp at h
        · subst h
          exact ⟨p, List.mem_cons_self p rest, Or.inl rfl⟩
        · rcases h with rfl | rfl
          · exact ⟨p, List.mem_cons_self p rest, Or.inl rfl⟩
          · exact ⟨p, List.mem_cons_self p rest, Or.inr rfl⟩
      · obtain ⟨q, hq, hop⟩ := ih fs op h
        exact ⟨q, List.mem_cons_of_mem p hq, hop⟩

theorem runPart000_ops_ok (enc : Encoder) (args : Args) (fs : FS) (op : FSOp)
    (h : op ∈ (runPart000 enc args fs).ops) : opOk op := by
  unfold runPart000 at h
  split at h
  · simp at h
  · split at h
    · simp at h
      subst h
      exact Or.inl rfl
    · split at h
      · simp at h
        rcases h with rfl | rfl
        · exact Or.inl rfl
        · exact Or.inr rfl
      · dsimp only at h
        split at h
        · dsimp only at h
          exact baseOps_ok _ op h
        · split at h
          · dsimp only at h
            exact baseOps_ok _ op h
          · dsimp only at h
            rcases List.mem_append.mp h with h' | h'
            · exact baseOps_ok _ op h'
            · exact runLoop_ops_ok enc _ _ _ _ op h'

theorem runScript_ops_ok (enc : Encoder) (fs : FS) (op : FSOp)
    (h : op ∈ (runScript enc fs).ops) : opOk op := by
  unfold runScript at h
  split at h
  · simp at h
    subst h
    exact Or.inl rfl
  · dsimp only at h
    split at h
    · dsimp only at h
      exact preOps_ok _ op h
    · rename_i jsonFiles heq
      split at h
      · dsimp only at h
        exact preOps_ok _ op h
      · dsimp only at h
        rcases List.mem_append.mp h with h' | h'
        · exact preOps_ok _ op h'
        · obtain ⟨p, hp, hop⟩ := scriptLoop_ops_shape enc jsonFiles
            (scriptEnsureOutput fs) op h'
          obtain ⟨n, hn⟩ := getJsonFiles_shape (scriptEnsureOutput fs) jsonFiles heq p hp
          rcases hop with rfl | rfl
          · exact ⟨n, hn⟩
          · exact ⟨dropJsonSuffix (lastComponent p) ++ ".toon", rfl⟩

/-- Claim C10: every filesystem operation of either run obeys the frame
discipline `opOk` — reads, stats and listings only touch the input
directory and its immediate entries, writes and removals only the output
directory — and in particular any mutating operation (write, removal,
directory creation) whose target lies in the input subtree can only be the
creation of the input directory itself, so no file under the input
directory is ever created, modified or deleted. -/
theorem c10_io_frame :
    (∀ enc args fs op, op ∈ (runPart000 enc args fs).ops → opOk op) ∧
    (∀ enc fs op, op ∈ (runScript enc fs).ops → opOk op) ∧
    (∀ enc args fs p, (FSOp.writeOp p ∈ (runPart000 enc args fs).ops ∨
        FSOp.rmOp p ∈ (runPart000 enc args fs).ops ∨
        FSOp.mkdirOp p ∈ (runPart000 enc args fs).ops) →
      p = inputDir ∨ inputDir.isPrefixOf p = false) ∧
    (∀ enc fs p, (FSOp.writeOp p ∈ (runScript enc fs).ops ∨
        FSOp.rmOp p ∈ (runScript enc fs).ops ∨
        FSOp.mkdirOp p ∈ (runScript enc fs).ops) →
      p = inputDir ∨ inputDir.isPrefixOf p = false) := by
  refine ⟨runPart000_ops_ok, runScript_ops_ok, ?_, ?_⟩
  · intro enc args fs p hmem
    rcases hmem with hm | hm | hm
    · obtain ⟨m, rfl⟩ := runPart000_ops_ok enc args fs _ hm
      exact Or.inr (input_not_prefix_output m)
    · have hp : p = outputDir := runPart000_ops_ok enc args fs _ hm
      subst hp
      exact Or.inr input_not_prefix_outputDir
    · rcases runPart000_ops_ok enc args fs _ hm with hp | hp
      · exact Or.inl hp
      · subst hp
        exact Or.inr input_not_prefix_outputDir
  · intro enc fs p hmem
    rcases hmem with hm | hm | hm
    · obtain ⟨m, rfl⟩ := runScript_ops_ok enc fs _ hm
      exact Or.inr (input_not_prefix_output m)
    · have hp : p = outputDir := runScript_ops_ok enc fs _ hm
      subst hp
      exact Or.inr input_not_prefix_outputDir
    · rcases runScript_ops_ok enc fs _ hm with hp | hp
      · exact Or.inl hp
      · subst hp
        exact Or.inr input_not_prefix_outputDir

/-- Witness for `c10_io_frame` at operations of the scenario runs. -/
theorem c10_io_frame_witness :
    opOk (FSOp.readOp (inputDir ++ ["a.json"])) ∧
    opOk (FSOp.readdirOp inputDir) ∧
    ((outputDir ++ ["a.toon"]) = inputDir ∨
      inputDir.isPrefixOf (outputDir ++ ["a.toon"]) = false) ∧
    ((outputDir ++ ["a.toon"]) = inputDir ∨
      inputDir.isPrefixOf (outputDir ++ ["a.toon"]) = false) := by
  refine ⟨?_, ?_, ?_, ?_⟩
  · exact c10_io_frame.1 encStub defaultArgs fsScenario
      (FSOp.readOp (inputDir ++ ["a.json"])) (by decide)
  · exact c10_io_frame.2.1 encStub fsScenario (FSOp.readdirOp inputDir) (by decide)
  · exact c10_io_frame.2.2.1 encStub defaultArgs fsScenario (outputDir ++ ["a.toon"])
      (Or.inl (by decide))
  · exact c10_io_frame.2.2.2 encStub fsScenario (outputDir ++ ["a.toon"])
      (Or.inl (by decide))

end Toon
